import Mathlib

/-!
# xdebug-trace-tree (Go version): the trace parser and the renderer

A shallow embedding of `go-version/src/github.com/xdebugtrace/xdebugtrace.go`.

Conventions of the embedding

* A Go `string` is a Lean `String`: the trace is text, and the functions below only
  compare bytes with ASCII bytes (`\t`, digits, the header literals), so working on
  characters and working on UTF-8 bytes agree.  Where Go slices by *byte* offsets
  (`ParseStartTime`), the UTF-8 bytes of the string are computed explicitly.
* Go `int` and `int64` are `Int`; `int` is taken to be 64 bits wide.  Arithmetic that can
  leave the 64-bit range is wrapped explicitly (`wrap64`).
* A run-time panic (index or slice bounds out of range) is a value `Except.error p`;
  a Go function that can panic returns `Except GoPanic _`.
* A method with a pointer receiver `x *XDebugTrace` takes the trace and returns the
  updated trace next to its result.
* `float64` and `time.Time` are kept abstract: the record `GoLib` collects the operations of
  the Go standard library on them that the program uses.
* A `range` over a Go map visits the entries in an unspecified order: the order of the
  visit is an argument of `ToHtml`.
-/

namespace xdebugtrace

/-! ## Run-time panics -/

/-- The two run-time panics the parser can raise. -/
inductive GoPanic where
  /-- The panic of `xs[i]` with `i ≥ len(xs)`. -/
  | indexOutOfRange (index len : Nat)
  /-- The panic of `s[lo:]` or `s[lo:hi]` with a bound beyond `len(s)`. -/
  | sliceBoundsOutOfRange (bound len : Nat)
  deriving DecidableEq, Repr

/-- The Go expression `xs[i]` on a slice. -/
def index {α : Type} (xs : List α) (i : Nat) : Except GoPanic α :=
  match xs[i]? with
  | some v => .ok v
  | none => .error (.indexOutOfRange i xs.length)

/-! ## Strings -/

/-- Number of bytes of the UTF-8 encoding of a character. -/
def utf8Width (c : Char) : Nat :=
  if c.toNat < 0x80 then 1
  else if c.toNat < 0x800 then 2
  else if c.toNat < 0x10000 then 3
  else 4

/-- The UTF-8 encoding of a character, as a list of bytes. -/
def utf8Bytes (c : Char) : List Nat :=
  let v := c.toNat
  if v < 0x80 then [v]
  else if v < 0x800 then [0xC0 + v / 64, 0x80 + v % 64]
  else if v < 0x10000 then [0xE0 + v / 4096, 0x80 + v / 64 % 64, 0x80 + v % 64]
  else [0xF0 + v / 262144, 0x80 + v / 4096 % 64, 0x80 + v / 64 % 64, 0x80 + v % 64]

/-- The bytes of a Go string. -/
def bytes (s : String) : List Nat :=
  s.data.flatMap utf8Bytes

/-- The Go expression `len(s)` on a string: its number of bytes. -/
def len (s : String) : Nat :=
  (s.data.map utf8Width).sum

/-- Fields of a character sequence separated by `sep`; there is always at least one field. -/
def splitChars (sep : Char) : List Char → List (List Char)
  | [] => [[]]
  | c :: cs =>
    if c = sep then [] :: splitChars sep cs
    else
      match splitChars sep cs with
      | [] => [[c]]
      | f :: fs => (c :: f) :: fs

/-- The Go call `strings.Split(s, sep)` for a one-character separator. -/
def Split (s : String) (sep : Char) : List String :=
  (splitChars sep s.data).map String.mk

/-! ## `strconv.ParseUint` and `strconv.ParseInt`, base 10 -/

/-- The two error kinds of `strconv`: a malformed numeral, a numeral out of range. -/
inductive NumError where
  | errSyn
  | errRange
  deriving DecidableEq, Repr

/-- The largest `uint64`. -/
def maxUint64 : Nat := 2 ^ 64 - 1

/-- The loop of `strconv.ParseUint(s, 10, bitSize)` over the digits, `n` being the value
read so far and `maxVal = 1<<bitSize - 1`. -/
def parseUintLoop (maxVal : Nat) : Nat → List Char → Nat × Option NumError
  | n, [] => (n, none)
  | n, c :: cs =>
    if c.isDigit then
      let v := c.toNat - 48
      if n ≥ maxUint64 / 10 + 1 then (maxUint64, some .errRange)
      else
        let n10 := n * 10
        let n1 := (n10 + v) % 2 ^ 64
        if n1 < n10 ∨ n1 > maxVal then (maxUint64, some .errRange)
        else parseUintLoop maxVal n1 cs
    else (0, some .errSyn)

/-- The Go call `strconv.ParseUint(s, 10, bitSize)`: the value and the error, if any. -/
def ParseUint (s : List Char) (bitSize : Nat) : Nat × Option NumError :=
  match s with
  | [] => (0, some .errSyn)
  | _ => parseUintLoop (2 ^ bitSize - 1) 0 s

/-- The Go call `strconv.ParseInt(s, 10, bitSize)`: the value and the error, if any.
On a malformed numeral the value is 0; on a numeral out of range it is the nearest bound. -/
def ParseInt (s : String) (bitSize : Nat) : Int × Option NumError :=
  match s.data with
  | [] => (0, some .errSyn)
  | c :: cs =>
    let neg : Bool := c = '-'
    let body := if c = '+' ∨ c = '-' then cs else c :: cs
    match ParseUint body bitSize with
    | (_, some .errSyn) => (0, some .errSyn)
    | (un, _) =>
      let cutoff : Nat := 2 ^ (bitSize - 1)
      if !neg && un ≥ cutoff then ((cutoff : Int) - 1, some .errRange)
      else if neg && un > cutoff then (-(cutoff : Int), some .errRange)
      else (if neg then -(un : Int) else (un : Int), none)

/-! ## Scalar decoders -/

/-- Reduce an integer to the range of `int64` (two's complement wrap-around). -/
def wrap64 (z : Int) : Int :=
  (z + 2 ^ 63) % 2 ^ 64 - 2 ^ 63

/-- Go `toInt64`: `i, _ := strconv.ParseInt(s, 10, 64); return i`. -/
def toInt64 (s : String) : Int :=
  (ParseInt s 64).1

/-- Go `toInt`: `int(toInt64(s))`, with a 64-bit `int`. -/
def toInt (s : String) : Int :=
  toInt64 s

/-- The operations of the Go standard library on `float64` (type `F`) and `time.Time`
(type `T`) that the program uses; they are parameters of the embedding. -/
structure GoLib (F T : Type) where
  /-- The value returned by `strconv.ParseFloat(s, 64)`, its error discarded. -/
  ParseFloat : String → F
  /-- The `float64` zero value `0`. -/
  fzero : F
  /-- Subtraction of `float64`. -/
  fsub : F → F → F
  /-- The Go call `strconv.FormatFloat(f, 'g', 1, 64)`. -/
  FormatFloat : F → String
  /-- The value returned by `time.Parse("2006-01-02 15:04:05", s)` on the bytes `s`,
  its error discarded. -/
  timeParse : List Nat → T
  /-- The zero value of `time.Time`. -/
  tzero : T

/-- Go `toFloat`: `f, _ := strconv.ParseFloat(s, 64); return f`. -/
def toFloat {F T : Type} (lib : GoLib F T) (s : String) : F :=
  lib.ParseFloat s

/-! ## Data model -/

/-- Go `struct XDebugFunction`. -/
structure XDebugFunction (F : Type) where
  depth : Int
  timeEnter : F
  memoryEnter : Int
  name : String
  internal : String
  file : String
  line : String
  params : List String
  timeExit : F
  memoryExit : Int
  timeDiff : F
  memoryDiff : Int
  ret : String
  lines : List String
  deriving DecidableEq, Repr

/-- The zero value `XDebugFunction{}`. -/
def XDebugFunction.zero {F T : Type} (lib : GoLib F T) : XDebugFunction F :=
  { depth := 0, timeEnter := lib.fzero, memoryEnter := 0, name := "", internal := "",
    file := "", line := "", params := [], timeExit := lib.fzero, memoryExit := 0,
    timeDiff := lib.fzero, memoryDiff := 0, ret := "", lines := [] }

/-- Go `map[int]XDebugFunction`: the entries, at most one per key when built with
`mapAssign` from the empty map.  The order of the list has no meaning. -/
abbrev FunctionsMap (F : Type) := List (Int × XDebugFunction F)

/-- The entry of key `k`, if there is one. -/
def mapLookup {F : Type} (m : FunctionsMap F) (k : Int) : Option (XDebugFunction F) :=
  match m with
  | [] => none
  | (k1, v) :: rest => if k1 = k then some v else mapLookup rest k

/-- The Go expression `m[k]`: the entry of key `k`, the zero value if there is none. -/
def mapIndex {F T : Type} (lib : GoLib F T) (m : FunctionsMap F) (k : Int) :
    XDebugFunction F :=
  (mapLookup m k).getD (XDebugFunction.zero lib)

/-- The Go statement `m[k] = v`: replace the entry of key `k`, or add one. -/
def mapAssign {F : Type} (m : FunctionsMap F) (k : Int) (v : XDebugFunction F) :
    FunctionsMap F :=
  match m with
  | [] => [(k, v)]
  | (k1, v1) :: rest => if k1 = k then (k, v) :: rest else (k1, v1) :: mapAssign rest k v

/-- Go `struct XDebugTrace`. -/
structure XDebugTrace (F T : Type) where
  version : String
  format : Int
  start_ts : T
  functions : FunctionsMap F
  deriving DecidableEq, Repr

/-- Go `newTrace`: the zero trace with an empty, allocated table. -/
def newTrace {F T : Type} (lib : GoLib F T) : XDebugTrace F T :=
  { version := "", format := 0, start_ts := lib.tzero, functions := [] }

/-! ## Record parser -/

/-- Go `(x *XDebugTrace) ParseFunction(parts)`: the returned record and the trace
afterwards, or the panic of an out-of-range `parts[i]`. -/
def ParseFunction {F T : Type} (lib : GoLib F T) (x : XDebugTrace F T)
    (parts : List String) : Except GoPanic (XDebugFunction F × XDebugTrace F T) := do
  let f := XDebugFunction.zero lib
  let nr := toInt (← index parts 1)
  let typ ← index parts 2
  if typ = "0" then
    let depth := toInt (← index parts 0)
    let timeEnter := toFloat lib (← index parts 3)
    let memoryEnter := toInt64 (← index parts 4)
    let name ← index parts 5
    let internal ← index parts 6
    let file ← index parts 8
    let line ← index parts 9
    let f := { f with depth := depth, timeEnter := timeEnter, memoryEnter := memoryEnter,
                      name := name, internal := internal, file := file, line := line }
    let p7 ← index parts 7
    let f :=
      if p7 ≠ "" then { f with params := [p7] }
      else if parts.length ≥ 12 then { f with params := parts.drop 11 }
      else f
    pure (f, { x with functions := mapAssign x.functions nr f })
  else if typ = "1" then
    let f := mapIndex lib x.functions nr
    let timeExit := toFloat lib (← index parts 3)
    let memoryExit := toInt64 (← index parts 4)
    let f := { f with timeExit := timeExit, memoryExit := memoryExit }
    let f := { f with timeDiff := lib.fsub f.timeExit f.timeEnter }
    let f := { f with memoryDiff := wrap64 (f.memoryExit - f.memoryEnter) }
    pure (f, { x with functions := mapAssign x.functions nr f })
  else if typ = "R" then
    let f := mapIndex lib x.functions nr
    let ret ← index parts 5
    let f := { f with ret := ret }
    pure (f, { x with functions := mapAssign x.functions nr f })
  else
    pure (f, x)

/-- Go `(x *XDebugTrace) ParseLine(line)`. -/
def ParseLine {F T : Type} (lib : GoLib F T) (x : XDebugTrace F T) (line : String) :
    Except GoPanic (XDebugFunction F × XDebugTrace F T) :=
  let parts := Split line '\t'
  if parts.length < 5 then
    pure (XDebugFunction.zero lib, x)
  else
    ParseFunction lib x parts

/-! ## Header parsers -/

/-- The pieces the two header patterns are made of. -/
inductive ReItem where
  /-- A literal character. -/
  | lit (c : Char)
  /-- The piece `\d*`: ASCII digits, as many as possible. -/
  | digits
  /-- The piece `.`: any character but the newline. -/
  | anyChar
  deriving DecidableEq, Repr

/-- The piece `\d*` followed by the rest of the pattern `k`: take one more digit when the
whole pattern still matches after it (greedy), otherwise go on with `k`. -/
def matchDigits (k : List Char → Option (List Char)) : List Char → Option (List Char)
  | [] => k []
  | c :: cs =>
    if c.isDigit then
      match matchDigits k cs with
      | some m => some (c :: m)
      | none => k (c :: cs)
    else k (c :: cs)

/-- The text matched by the pattern at the start of the input, if it matches there. -/
def matchHere : List ReItem → List Char → Option (List Char)
  | [], _ => some []
  | .lit a :: re, s =>
    match s with
    | [] => none
    | c :: cs => if c = a then (matchHere re cs).map (c :: ·) else none
  | .anyChar :: re, s =>
    match s with
    | [] => none
    | c :: cs => if c = '\n' then none else (matchHere re cs).map (c :: ·)
  | .digits :: re, s => matchDigits (matchHere re) s

/-- The leftmost match of the pattern in the input, if there is one. -/
def findMatch (re : List ReItem) : List Char → Option (List Char)
  | [] => matchHere re []
  | c :: cs =>
    match matchHere re (c :: cs) with
    | some m => some m
    | none => findMatch re cs

/-- The Go call `reg.FindString(s)`: the leftmost match, the empty string if there is none. -/
def FindString (re : List ReItem) (s : String) : String :=
  match findMatch re s.data with
  | some m => String.mk m
  | none => ""

/-- The pattern made of the characters of a literal. -/
def reLit (s : String) : List ReItem :=
  s.data.map ReItem.lit

/-- The pattern `Version: \d*.\d*.\d*` of `ParseVersion`. -/
def versionPattern : List ReItem :=
  reLit "Version: " ++ [.digits, .anyChar, .digits, .anyChar, .digits]

/-- The pattern `File format: \d*` of `ParseFormat`. -/
def formatPattern : List ReItem :=
  reLit "File format: " ++ [.digits]

/-- The Go expression `s[lo:]` for a string that is empty or starts with `lo` ASCII
bytes, as every result of `FindString` on the two header patterns does. -/
def sliceFrom (s : String) (lo : Nat) : Except GoPanic String :=
  if len s < lo then .error (.sliceBoundsOutOfRange lo (len s))
  else .ok (String.mk (s.data.drop lo))

/-- Go `ParseVersion`: `reg.FindString(line)[len("Version: "):]`. -/
def ParseVersion (line : String) : Except GoPanic String :=
  sliceFrom (FindString versionPattern line) (len "Version: ")

/-- Go `ParseFormat`: `reg.FindString(line)[len("File format: "):]`. -/
def ParseFormat (line : String) : Except GoPanic String :=
  sliceFrom (FindString formatPattern line) (len "File format: ")

/-- Go `toTime`: `timestamp, _ := time.Parse(tsformat, line); return timestamp`. -/
def toTime {F T : Type} (lib : GoLib F T) (line : List Nat) : T :=
  lib.timeParse line

/-- Go `ParseStartTime`: `toTime(line[len(head):len(head)+len(tsformat)])`, a slice of
the bytes of the line. -/
def ParseStartTime {F T : Type} (lib : GoLib F T) (line : String) : Except GoPanic T :=
  let lo := len "TRACE START ["
  let hi := lo + len "2006-01-02 15:04:05"
  if len line < hi then .error (.sliceBoundsOutOfRange hi (len line))
  else .ok (toTime lib (((bytes line).drop lo).take (hi - lo)))

/-! ## Trace assembler -/

/-- The loop `for _, line := range lines { x.ParseLine(line) }`. -/
def parseLines {F T : Type} (lib : GoLib F T) :
    XDebugTrace F T → List String → Except GoPanic (XDebugTrace F T)
  | x, [] => .ok x
  | x, line :: rest =>
    match ParseLine lib x line with
    | .ok (_, x1) => parseLines lib x1 rest
    | .error p => .error p

/-- Go `ParseContent`. -/
def ParseContent {F T : Type} (lib : GoLib F T) (lines : List String) :
    Except GoPanic (XDebugTrace F T) :=
  let x := newTrace lib
  if lines.length < 4 then .ok x
  else do
    let version ← ParseVersion (← index lines 0)
    let x := { x with version := version }
    let format := (ParseInt (← ParseFormat (← index lines 1)) 8).1
    let x := { x with format := format }
    let start_ts ← ParseStartTime lib (← index lines 3)
    let x := { x with start_ts := start_ts }
    parseLines lib x (lines.drop 3)

/-! ## Renderer -/

/-- Go `join`: `s = ss[0]`, then `s = s + ss[i]` for `i = 1 .. len(ss)-1`; the empty
string for an empty slice.  The parameter `sep` is not used by the source. -/
def join (_sep : String) (ss : List String) : String :=
  match ss with
  | [] => ""
  | s0 :: rest => rest.foldl (fun s e => s ++ e) s0

/-- The Go conversion `string(i)` of an `int64`: the UTF-8 text of the code point `i`, and
`"\uFFFD"` when `i` is not a valid code point. -/
def runeString (i : Int) : String :=
  if 0 ≤ i ∧ i.toNat.isValidChar then String.mk [Char.ofNat i.toNat] else "\uFFFD"

/-- The lines `ToHtml` adds before the loop over the records. -/
def htmlHeader : List String :=
  [ "<head>",
    "<link rel=\"stylesheet\" href=\"style.css\" type=\"text/css\">",
    "</head>",
    "<script type=\"text/javascript\" src=\"script.js\"></script>",
    "<div class=\"f header\">",
    "<div class=\"func\">Function Call</div>",
    "<div class=\"data\">",
    "<span class=\"file\">File:Line</span>",
    "<span class=\"timediff\">ΔTime</span>",
    "<span class=\"memorydiff\">ΔMemory</span>",
    "<span class=\"time\">Time</span>",
    "</div>",
    "</div>" ]

/-- The lines the loop body of `ToHtml` adds to move from nesting `level` to `depth`:
`depth - level` times `<div class="d">` when `depth > level`, `level - depth` times
`</div>` when `depth < level`. -/
def htmlDepthLines (level depth : Int) : List String :=
  if depth > level then List.replicate (depth - level).toNat "<div class=\"d\">"
  else if depth < level then List.replicate (level - depth).toNat "</div>"
  else []

/-- The lines the loop body of `ToHtml` adds for the record `f` itself. -/
def htmlRecordLines {F T : Type} (lib : GoLib F T) (f : XDebugFunction F) : List String :=
  let cls := if f.internal = "1" then "f" ++ " i" else "f"
  [ "<div class=\"" ++ cls ++ "\">",
    "<div class=\"func\">",
    "<span class=\"name\">" ++ f.name ++ "</span>",
    "<span class=\"params short\">" ++ join "," f.params ++ "</span>" ]
  ++ (if f.ret ≠ "" then ["→ <span class=\"return short\">" ++ f.ret ++ "</span>"] else [])
  ++ [ "</div>",
       "<div class=\"data\">",
       "<span class=\"file\" title=\"" ++ f.file ++ ":" ++ f.line ++ "\">" ++
         f.file ++ ":" ++ f.line ++ "</span>",
       "<span class=\"timediff\">" ++ lib.FormatFloat f.timeDiff ++ "</span>",
       "<span class=\"memorydiff\">" ++ runeString f.memoryDiff ++ "</span>",
       "<span class=\"time\">" ++ lib.FormatFloat f.timeEnter ++ "</span>",
       "</div>",
       "</div>" ]

/-- The loop `for _, f := range x.functions` of `ToHtml`, visiting the entries in the
order `visit` and starting at nesting `level`: the lines added and the last level. -/
def htmlLoop {F T : Type} (lib : GoLib F T) :
    Int → List (Int × XDebugFunction F) → List String × Int
  | level, [] => ([], level)
  | level, (_, f) :: rest =>
    let (ls, last) := htmlLoop lib f.depth rest
    (htmlDepthLines level f.depth ++ htmlRecordLines lib f ++ ls, last)

/-- Go `(x *XDebugTrace) ToHtml()`, for a run in which `range x.functions` visits the
entries of the table in the order `visit`.  Go leaves the order of a `range` over a map
unspecified: every permutation of the table is a possible `visit`. -/
def ToHtml {F T : Type} (lib : GoLib F T) (visit : List (Int × XDebugFunction F)) :
    List String :=
  let (ls, level) := htmlLoop lib 0 visit
  htmlHeader ++ ls ++ (if level > 0 then List.replicate level.toNat "</div>" else [])

/-! ## An instance of the library parameters

Numerals without a fraction stand in for `float64`, and the sliced bytes themselves for
`time.Time`; this instance only serves to run the definitions on concrete traces. -/

/-- A small instance of `GoLib`. -/
def demoLib : GoLib Int (List Nat) :=
  { ParseFloat := fun s => toInt64 s
    fzero := 0
    fsub := fun a b => a - b
    FormatFloat := fun _ => ""
    timeParse := fun s => s
    tzero := [] }

/-! ## Vocabulary for statements about trace lines and output lines -/

/-- The record kind `field[2]` of a line the record parser looks at, that is of a line
with at least 5 tab-separated fields; `none` for a shorter line. -/
def recordKind (line : String) : Option String :=
  if (Split line '\t').length < 5 then none else (Split line '\t')[2]?

/-- The id `toInt(field[1])` of a line (of the empty string if there is no such field). -/
def recordId (line : String) : Int :=
  toInt ((Split line '\t').getD 1 "")

/-- The line is a record of kind "0", "1" or "R" with at least 5 fields. -/
def isRecord (line : String) : Prop :=
  recordKind line = some "0" ∨ recordKind line = some "1" ∨ recordKind line = some "R"

instance (line : String) : Decidable (isRecord line) := by
  unfold isRecord
  infer_instance

/-- The number a sequence of decimal digits denotes. -/
def digitsVal (ds : List Char) : Nat :=
  ds.foldl (fun n c => 10 * n + (c.toNat - 48)) 0

/-- The value of `strconv.ParseInt(s, 10, 64)` in terms of the outcome `r` of `ParseUint` on
the part of `s` after the sign, `neg` telling whether the sign is `-`. -/
def clampInt64 (neg : Bool) (r : Nat × Option NumError) : Int :=
  match r with
  | (_, some .errSyn) => 0
  | (un, _) =>
    if neg then (if un > 2 ^ 63 then -(2 ^ 63) else -(un : Int))
    else (if un ≥ 2 ^ 63 then 2 ^ 63 - 1 else (un : Int))

/-- Two traces with identical version, format and start timestamp, and with the same ids
mapped to equal records. -/
def sameTrace {F T : Type} (x y : XDebugTrace F T) : Prop :=
  x.version = y.version ∧ x.format = y.format ∧ x.start_ts = y.start_ts ∧
    ∀ k, mapLookup x.functions k = mapLookup y.functions k

/-- Two runs with the same outcome: the same panic, or traces with identical content. -/
def sameRun {F T : Type} (r1 r2 : Except GoPanic (XDebugTrace F T)) : Prop :=
  match r1, r2 with
  | .ok x, .ok y => sameTrace x y
  | .error p, .error q => p = q
  | _, _ => False

/-- The output line opens a `div` and does not close it on the same line. -/
def opensDiv (l : String) : Bool :=
  "<div".data.isPrefixOf l.data && !("</div>".data.isSuffixOf l.data)

/-- The output line is the closing line `</div>`. -/
def closesDiv (l : String) : Bool :=
  l = "</div>"

/-- What an output line does to the number of open `div` containers: `-1` for the closing
line `</div>`, `1` for a line that opens a `div` without closing it, `0` for any other. -/
def divDelta (l : String) : Int :=
  if closesDiv l then -1 else if opensDiv l then 1 else 0

/-- Starting with `b` open containers and going through the changes `ds`, the number of
open containers is never negative. -/
def prefixesNonneg (b : Int) (ds : List Int) : Prop :=
  ∀ n, 0 ≤ b + (ds.take n).sum

/-- Number of lines that open a `div` without closing it. -/
def countOpens (ls : List String) : Nat :=
  (ls.filter opensDiv).length

/-- Number of lines equal to `</div>`. -/
def countCloses (ls : List String) : Nat :=
  (ls.filter closesDiv).length

/-! ## Auxiliary facts -/

section Lemmas

variable {F T : Type}

/-- Looking up the key just assigned gives the assigned record. -/
theorem mapLookup_mapAssign_self (m : FunctionsMap F) (k : Int) (v : XDebugFunction F) :
    mapLookup (mapAssign m k v) k = some v := by
  induction m with
  | nil => simp [mapAssign, mapLookup]
  | cons e rest ih =>
    obtain ⟨k1, v1⟩ := e
    by_cases h : k1 = k
    · simp [mapAssign, mapLookup, h]
    · simp [mapAssign, mapLookup, h, ih]

/-- An absent key indexes to the zero value. -/
theorem mapIndex_of_none (lib : GoLib F T) (m : FunctionsMap F) (k : Int)
    (h : mapLookup m k = none) : mapIndex lib m k = XDebugFunction.zero lib := by
  simp [mapIndex, h]

/-- A present key indexes to its record. -/
theorem mapIndex_of_some (lib : GoLib F T) (m : FunctionsMap F) (k : Int)
    (r : XDebugFunction F) (h : mapLookup m k = some r) : mapIndex lib m k = r := by
  simp [mapIndex, h]

/-- An integer in the `int64` range is left alone by `wrap64`. -/
theorem wrap64_of_range (z : Int) (h1 : -(2 ^ 63) ≤ z) (h2 : z < 2 ^ 63) : wrap64 z = z := by
  unfold wrap64
  norm_num at h1 h2 ⊢
  omega

/-- The value of `strconv.ParseInt(s, 10, 64)` is an `int64`. -/
theorem toInt64_range (s : String) : -(2 ^ 63) ≤ toInt64 s ∧ toInt64 s < 2 ^ 63 := by
  unfold toInt64 ParseInt
  split
  · norm_num
  · rename_i c cs _
    simp only
    split
    · norm_num
    · rename_i un e _ _
      by_cases hneg : c = '-'
      · by_cases hgt : 9223372036854775808 < un
        · simp [hneg, hgt]
        · simp [hneg, hgt]
          omega
      · by_cases hge : 9223372036854775808 ≤ un
        · simp [hneg, hge]
        · simp [hneg, hge]
          omega

/-- An enter record with at least 10 fields: the record built from the fields is
returned and assigned to its id. -/
theorem ParseFunction_enter (lib : GoLib F T) (x : XDebugTrace F T)
    (d i t m n intl p7 fl ln : String) (rest : List String) :
    ParseFunction lib x (d :: i :: "0" :: t :: m :: n :: intl :: p7 :: fl :: ln :: rest) =
      .ok (
        let f : XDebugFunction F :=
          { depth := toInt d, timeEnter := toFloat lib t, memoryEnter := toInt64 m,
            name := n, internal := intl, file := fl, line := ln,
            params := (if p7 ≠ "" then [p7] else if rest.length ≥ 2 then rest.drop 1 else []),
            timeExit := lib.fzero, memoryExit := 0, timeDiff := lib.fzero, memoryDiff := 0,
            ret := "", lines := [] }
        (f, { x with functions := mapAssign x.functions (toInt i) f })) := by
  simp only [ParseFunction, index, bind, Except.bind, pure, Except.pure, XDebugFunction.zero]
  by_cases h7 : p7 = ""
  · by_cases hl : 2 ≤ rest.length <;> simp [h7, hl]
  · simp [h7]

/-- An exit record with at least 5 fields: the record of its id (the zero value if there
is none) gets the exit values and the two differences, and is assigned back. -/
theorem ParseFunction_exit (lib : GoLib F T) (x : XDebugTrace F T)
    (d i t m : String) (rest : List String) :
    ParseFunction lib x (d :: i :: "1" :: t :: m :: rest) =
      .ok (
        let r := mapIndex lib x.functions (toInt i)
        let f : XDebugFunction F :=
          { r with timeExit := toFloat lib t, memoryExit := toInt64 m,
                   timeDiff := lib.fsub (toFloat lib t) r.timeEnter,
                   memoryDiff := wrap64 (toInt64 m - r.memoryEnter) }
        (f, { x with functions := mapAssign x.functions (toInt i) f })) := by
  simp [ParseFunction, index, bind, Except.bind, pure, Except.pure]

/-- A return record with at least 6 fields: the record of its id (the zero value if there
is none) gets the return value, and is assigned back. -/
theorem ParseFunction_return (lib : GoLib F T) (x : XDebugTrace F T)
    (d i t m p5 : String) (rest : List String) :
    ParseFunction lib x (d :: i :: "R" :: t :: m :: p5 :: rest) =
      .ok (
        let r := mapIndex lib x.functions (toInt i)
        let f : XDebugFunction F := { r with ret := p5 }
        (f, { x with functions := mapAssign x.functions (toInt i) f })) := by
  simp [ParseFunction, index, bind, Except.bind, pure, Except.pure]

/-- A record of any other kind: the zero value is returned, the trace is left alone. -/
theorem ParseFunction_other (lib : GoLib F T) (x : XDebugTrace F T)
    (d i k : String) (rest : List String) (h0 : k ≠ "0") (h1 : k ≠ "1") (hR : k ≠ "R") :
    ParseFunction lib x (d :: i :: k :: rest) = .ok (XDebugFunction.zero lib, x) := by
  simp [ParseFunction, index, bind, Except.bind, pure, Except.pure, h0, h1, hR]

/-- A line with fewer than 5 fields: the zero value is returned, the trace is left alone. -/
theorem ParseLine_of_short (lib : GoLib F T) (x : XDebugTrace F T) (line : String)
    (h : (Split line '\t').length < 5) :
    ParseLine lib x line = .ok (XDebugFunction.zero lib, x) := by
  simp [ParseLine, h, pure, Except.pure]

/-- A line with at least 5 fields is handed to `ParseFunction`. -/
theorem ParseLine_of_long (lib : GoLib F T) (x : XDebugTrace F T) (line : String)
    (h : 5 ≤ (Split line '\t').length) :
    ParseLine lib x line = ParseFunction lib x (Split line '\t') := by
  simp [ParseLine, Nat.not_lt.mpr h]

/-- Feeding lines that all have fewer than 5 fields leaves the trace alone. -/
theorem parseLines_of_short (lib : GoLib F T) (x : XDebugTrace F T) (lines : List String)
    (h : ∀ l ∈ lines, (Split l '\t').length < 5) : parseLines lib x lines = .ok x := by
  induction lines with
  | nil => rfl
  | cons l rest ih =>
    have hl := ParseLine_of_short lib x l (h l (List.mem_cons_self l rest))
    simp only [parseLines, hl]
    exact ih (fun l1 h1 => h l1 (List.mem_cons_of_mem l h1))

/-- A character is an ASCII digit when its code is between 48 and 57. -/
theorem isDigit_iff (c : Char) : c.isDigit = true ↔ 48 ≤ c.toNat ∧ c.toNat ≤ 57 := by
  simp [Char.isDigit, Char.toNat, UInt32.le_def, UInt32.toNat, BitVec.le_def]

/-- Reading more digits never lowers the value read so far. -/
theorem digitsVal_foldl_ge (ds : List Char) (n : Nat) :
    n ≤ ds.foldl (fun n c => 10 * n + (c.toNat - 48)) n := by
  induction ds generalizing n with
  | nil => simp
  | cons c cs ih =>
    simp only [List.foldl_cons]
    exact le_trans (by omega) (ih _)

/-- The loop of `ParseUint` on a run of digits: the value they denote after `n`, or the
range error as soon as that value leaves `uint64`. -/
theorem parseUintLoop_digits (ds : List Char) (hds : ∀ c ∈ ds, c.isDigit = true) (n : Nat)
    (hn : n < 2 ^ 64) :
    parseUintLoop (2 ^ 64 - 1) n ds =
      if ds.foldl (fun n c => 10 * n + (c.toNat - 48)) n < 2 ^ 64 then
        (ds.foldl (fun n c => 10 * n + (c.toNat - 48)) n, none)
      else (2 ^ 64 - 1, some .errRange) := by
  induction ds generalizing n with
  | nil =>
    norm_num at hn
    simp [parseUintLoop, hn]
  | cons c cs ih =>
    have hc := hds c (List.mem_cons_self c cs)
    have hcs : ∀ d ∈ cs, d.isDigit = true := fun d hd => hds d (List.mem_cons_of_mem c hd)
    have hv := (isDigit_iff c).mp hc
    have hge := digitsVal_foldl_ge cs (10 * n + (c.toNat - 48))
    simp only [parseUintLoop, hc, if_true, List.foldl_cons, maxUint64]
    norm_num at hn hge ⊢
    by_cases h1 : 1844674407370955162 ≤ n
    · rw [if_pos h1, if_neg (by omega)]
    · rw [if_neg h1]
      by_cases h2 : n * 10 + (c.toNat - 48) < 18446744073709551616
      · have hmod : (n * 10 + (c.toNat - 48)) % 18446744073709551616 = n * 10 + (c.toNat - 48) :=
          Nat.mod_eq_of_lt h2
        rw [hmod, if_neg (by omega)]
        have := ih hcs (n * 10 + (c.toNat - 48)) (by norm_num; exact h2)
        norm_num at this
        rw [this, Nat.mul_comm n 10]
      · have hlt : (n * 10 + (c.toNat - 48)) % 18446744073709551616 < n * 10 := by omega
        rw [if_pos (Or.inl hlt), if_neg (by omega)]

/-- The loop of `ParseUint` on a run of digits followed by a character that is not a
digit: the malformed-numeral error with value 0, unless the digits before it already left
`uint64`, which gives the range error. -/
theorem parseUintLoop_garbage (ds : List Char) (hds : ∀ c ∈ ds, c.isDigit = true)
    (g : Char) (hg : g.isDigit = false) (rest : List Char) (n : Nat) (hn : n < 2 ^ 64) :
    parseUintLoop (2 ^ 64 - 1) n (ds ++ g :: rest) =
      if ds.foldl (fun n c => 10 * n + (c.toNat - 48)) n < 2 ^ 64 then (0, some .errSyn)
      else (2 ^ 64 - 1, some .errRange) := by
  induction ds generalizing n with
  | nil =>
    norm_num at hn
    simp [parseUintLoop, hn, hg]
  | cons c cs ih =>
    have hc := hds c (List.mem_cons_self c cs)
    have hcs : ∀ d ∈ cs, d.isDigit = true := fun d hd => hds d (List.mem_cons_of_mem c hd)
    have hv := (isDigit_iff c).mp hc
    have hge := digitsVal_foldl_ge cs (10 * n + (c.toNat - 48))
    simp only [List.cons_append, parseUintLoop, hc, if_true, List.foldl_cons, maxUint64]
    norm_num at hn hge ⊢
    by_cases h1 : 1844674407370955162 ≤ n
    · rw [if_pos h1, if_neg (by omega)]
    · rw [if_neg h1]
      by_cases h2 : n * 10 + (c.toNat - 48) < 18446744073709551616
      · have hmod : (n * 10 + (c.toNat - 48)) % 18446744073709551616 = n * 10 + (c.toNat - 48) :=
          Nat.mod_eq_of_lt h2
        rw [hmod, if_neg (by omega)]
        have := ih hcs (n * 10 + (c.toNat - 48)) (by norm_num; exact h2)
        norm_num at this
        rw [this, Nat.mul_comm n 10]
      · have hlt : (n * 10 + (c.toNat - 48)) % 18446744073709551616 < n * 10 := by omega
        rw [if_pos (Or.inl hlt), if_neg (by omega)]

/-- `toInt64` on a string that does not start with a sign. -/
theorem toInt64_unsigned (d : Char) (ds : List Char) (hdp : d ≠ '+') (hdm : d ≠ '-') :
    toInt64 (String.mk (d :: ds)) = clampInt64 false (parseUintLoop (2 ^ 64 - 1) 0 (d :: ds)) := by
  simp only [toInt64, ParseInt, hdp, hdm, ParseUint, clampInt64, or_self, if_false]
  rcases parseUintLoop (2 ^ 64 - 1) 0 (d :: ds) with ⟨un, _ | _ | _⟩
  · by_cases h : 9223372036854775808 ≤ un <;> simp [h]
  · simp
  · by_cases h : 9223372036854775808 ≤ un <;> simp [h]

/-- `toInt64` on a string that starts with `+` and goes on. -/
theorem toInt64_plus (b : Char) (bs : List Char) :
    toInt64 (String.mk ('+' :: b :: bs)) = clampInt64 false (parseUintLoop (2 ^ 64 - 1) 0 (b :: bs)) := by
  simp only [toInt64, ParseInt, ParseUint, clampInt64, true_or, if_true]
  rcases parseUintLoop (2 ^ 64 - 1) 0 (b :: bs) with ⟨un, _ | _ | _⟩
  · by_cases h : 9223372036854775808 ≤ un <;> simp [h]
  · simp
  · by_cases h : 9223372036854775808 ≤ un <;> simp [h]

/-- `toInt64` on a string that starts with `-` and goes on. -/
theorem toInt64_minus (b : Char) (bs : List Char) :
    toInt64 (String.mk ('-' :: b :: bs)) = clampInt64 true (parseUintLoop (2 ^ 64 - 1) 0 (b :: bs)) := by
  simp only [toInt64, ParseInt, ParseUint, clampInt64, or_true, if_true]
  rcases parseUintLoop (2 ^ 64 - 1) 0 (b :: bs) with ⟨un, _ | _ | _⟩
  · by_cases h : 9223372036854775808 < un <;> simp [h]
  · simp
  · by_cases h : 9223372036854775808 < un <;> simp [h]

/-- `toInt64` on an optionally signed run of digits: the integer it denotes, or the nearest
bound of `int64` when that integer is out of range. -/
theorem toInt64_numeral (sg ds : List Char)
    (hsg : sg = [] ∨ sg = ['+'] ∨ sg = ['-'])
    (hds : ∀ c ∈ ds, c.isDigit = true) (hne : ds ≠ []) :
    toInt64 (String.mk (sg ++ ds)) =
      if sg = ['-'] then max (-(2 ^ 63)) (-(digitsVal ds : Int))
      else min (2 ^ 63 - 1) (digitsVal ds : Int) := by
  obtain ⟨d, ds1, rfl⟩ := List.exists_cons_of_ne_nil hne
  have hd := hds d (List.mem_cons_self d ds1)
  have hdp : d ≠ '+' := by rintro rfl; revert hd; decide
  have hdm : d ≠ '-' := by rintro rfl; revert hd; decide
  have hloop := parseUintLoop_digits (d :: ds1) hds 0 (by norm_num)
  have hval : List.foldl (fun n c => 10 * n + (c.toNat - 48)) 0 (d :: ds1) = digitsVal (d :: ds1) := rfl
  rw [hval] at hloop
  generalize digitsVal (d :: ds1) = v at hloop ⊢
  have hclampF : clampInt64 false (if v < 2 ^ 64 then (v, none) else (2 ^ 64 - 1, some .errRange))
      = min (2 ^ 63 - 1) (v : Int) := by
    by_cases h : v < 2 ^ 64
    · rw [if_pos h]
      simp only [clampInt64]
      norm_num
      split_ifs <;> omega
    · rw [if_neg h]
      simp only [clampInt64]
      norm_num at h ⊢
      omega
  have hclampT : clampInt64 true (if v < 2 ^ 64 then (v, none) else (2 ^ 64 - 1, some .errRange))
      = max (-(2 ^ 63)) (-(v : Int)) := by
    by_cases h : v < 2 ^ 64
    · rw [if_pos h]
      simp only [clampInt64]
      norm_num
      split_ifs <;> omega
    · rw [if_neg h]
      simp only [clampInt64]
      norm_num at h ⊢
      omega
  rcases hsg with rfl | rfl | rfl
  · rw [List.nil_append, toInt64_unsigned d ds1 hdp hdm, hloop, hclampF]
    simp
  · rw [List.singleton_append, toInt64_plus, hloop, hclampF]
    simp
  · rw [List.singleton_append, toInt64_minus, hloop, hclampT]
    simp

/-- The piece `\d*` takes a run of digits whole when the pattern matches after it. -/
theorem matchDigits_append (k : List Char → Option (List Char)) (ds rest m : List Char)
    (hds : ∀ c ∈ ds, c.isDigit = true) (h : matchDigits k rest = some m) :
    matchDigits k (ds ++ rest) = some (ds ++ m) := by
  induction ds with
  | nil => simpa using h
  | cons d ds1 ih =>
    have hd := hds d (List.mem_cons_self d ds1)
    have ih1 := ih (fun c hc => hds c (List.mem_cons_of_mem d hc))
    simp [matchDigits, hd, ih1]

/-- The piece `\d*` takes nothing from an input that does not start with a digit. -/
theorem matchDigits_of_no_digit (k : List Char → Option (List Char)) (rest : List Char)
    (h : ∀ c ∈ rest.take 1, c.isDigit = false) : matchDigits k rest = k rest := by
  cases rest with
  | nil => rfl
  | cons c cs =>
    have hc : c.isDigit = false := h c (by simp)
    simp [matchDigits, hc]

/-- The piece `\d*` at the head of a pattern. -/
theorem matchHere_digits (re : List ReItem) (s : List Char) :
    matchHere (ReItem.digits :: re) s = matchDigits (matchHere re) s := by
  rw [matchHere]

/-- The piece `.` at the head of a pattern, on an input that is not empty. -/
theorem matchHere_anyChar (re : List ReItem) (c : Char) (cs : List Char) :
    matchHere (ReItem.anyChar :: re) (c :: cs) =
      if c = '\n' then none else (matchHere re cs).map (c :: ·) := by
  rw [matchHere]

/-- A literal character at the head of a pattern, on an input that starts with it. -/
theorem matchHere_lit_cons (re : List ReItem) (c : Char) (cs : List Char) :
    matchHere (ReItem.lit c :: re) (c :: cs) = (matchHere re cs).map (c :: ·) := by
  rw [matchHere]
  simp

/-- A pattern that starts with literal characters matches an input that starts with the
same characters when the rest of the pattern matches the rest of the input. -/
theorem matchHere_lit (cs : List Char) (re : List ReItem) (s : List Char) :
    matchHere (cs.map ReItem.lit ++ re) (cs ++ s) = (matchHere re s).map (cs ++ ·) := by
  induction cs with
  | nil => simp
  | cons c cs1 ih =>
    rw [List.map_cons, List.cons_append, List.cons_append, matchHere_lit_cons, ih,
      Option.map_map]
    rfl

/-- A match at the start of the input is the leftmost match. -/
theorem findMatch_of_matchHere (re : List ReItem) (s m : List Char)
    (h : matchHere re s = some m) : findMatch re s = some m := by
  cases s with
  | nil => simpa [findMatch] using h
  | cons c cs => simp [findMatch, h]

/-- Positions at which the pattern does not match are skipped. -/
theorem findMatch_skip (re : List ReItem) (pre rest : List Char)
    (h : ∀ n, n < pre.length → matchHere re (pre.drop n ++ rest) = none) :
    findMatch re (pre ++ rest) = findMatch re rest := by
  induction pre with
  | nil => rfl
  | cons c cs ih =>
    have h0 := h 0 (by simp)
    simp only [List.drop_zero] at h0
    have hcs : ∀ n, n < cs.length → matchHere re (cs.drop n ++ rest) = none := by
      intro n hn
      have := h (n + 1) (by simpa using hn)
      simpa using this
    simp only [List.cons_append] at h0 ⊢
    simp only [findMatch, h0]
    exact ih hcs

/-- Byte length of a string made of two parts. -/
theorem len_append (a b : List Char) :
    len (String.mk (a ++ b)) = len (String.mk a) + len (String.mk b) := by
  simp [len]

/-- The piece `\d*` at the end of a pattern takes a run of digits whole and stops
before a character that is not a digit. -/
theorem matchHere_last_digits (N post : List Char)
    (hN : ∀ c ∈ N, c.isDigit = true) (hpost : ∀ c ∈ post.take 1, c.isDigit = false) :
    matchHere [ReItem.digits] (N ++ post) = some N := by
  have h0 : matchDigits (matchHere []) post = some [] := by
    rw [matchDigits_of_no_digit _ _ hpost]
    cases post <;> rfl
  rw [matchHere_digits, matchDigits_append (matchHere []) N post [] hN h0, List.append_nil]

/-- The pieces `\d*.` on a run of digits followed by a dot. -/
theorem matchHere_digits_dot (re : List ReItem) (X r m : List Char)
    (hX : ∀ c ∈ X, c.isDigit = true) (h : matchHere re r = some m) :
    matchHere (ReItem.digits :: ReItem.anyChar :: re) (X ++ '.' :: r) =
      some (X ++ '.' :: m) := by
  have h0 : matchDigits (matchHere (ReItem.anyChar :: re)) ('.' :: r) = some ('.' :: m) := by
    rw [matchDigits_of_no_digit _ _ (by simp), matchHere_anyChar,
      if_neg (by decide), h]
    rfl
  rw [matchHere_digits]
  exact matchDigits_append _ X _ _ hX h0

/-- The version pattern on an input that starts with `Version: X.Y.Z`, the three parts
being runs of digits and the text after them not starting with a digit. -/
theorem matchHere_version (X Y Z post : List Char)
    (hX : ∀ c ∈ X, c.isDigit = true) (hY : ∀ c ∈ Y, c.isDigit = true)
    (hZ : ∀ c ∈ Z, c.isDigit = true) (hpost : ∀ c ∈ post.take 1, c.isDigit = false) :
    matchHere versionPattern ("Version: ".data ++ (X ++ '.' :: (Y ++ '.' :: (Z ++ post)))) =
      some ("Version: ".data ++ (X ++ '.' :: (Y ++ '.' :: Z))) := by
  have h3 := matchHere_last_digits Z post hZ hpost
  have h2 := matchHere_digits_dot _ Y _ _ hY h3
  have h1 := matchHere_digits_dot _ X _ _ hX h2
  unfold versionPattern reLit
  rw [matchHere_lit, h1]
  rfl

/-- The file-format pattern on an input that starts with `File format: N`, `N` being a run
of digits and the text after it not starting with a digit. -/
theorem matchHere_format (N post : List Char)
    (hN : ∀ c ∈ N, c.isDigit = true) (hpost : ∀ c ∈ post.take 1, c.isDigit = false) :
    matchHere formatPattern ("File format: ".data ++ (N ++ post)) =
      some ("File format: ".data ++ N) := by
  have h3 := matchHere_last_digits N post hN hpost
  unfold formatPattern reLit
  rw [matchHere_lit, h3]
  rfl

/-- Slicing off a literal of `n` ASCII bytes that the string starts with. -/
theorem sliceFrom_lit (lit core : List Char) (n : Nat)
    (hn : len (String.mk lit) = n) (hl : lit.length = n) :
    sliceFrom (String.mk (lit ++ core)) n = .ok (String.mk core) := by
  have h : ¬ len (String.mk (lit ++ core)) < n := by
    rw [len_append, hn]
    omega
  unfold sliceFrom
  rw [if_neg h]
  subst hl
  simp

/-- `ParseVersion` returns what follows `Version: ` in the leftmost match. -/
theorem ParseVersion_of_findMatch (line : String) (core : List Char)
    (h : findMatch versionPattern line.data = some ("Version: ".data ++ core)) :
    ParseVersion line = .ok (String.mk core) := by
  simp only [ParseVersion, FindString, h]
  exact sliceFrom_lit _ core _ rfl (by decide)

/-- `ParseFormat` returns what follows `File format: ` in the leftmost match. -/
theorem ParseFormat_of_findMatch (line : String) (core : List Char)
    (h : findMatch formatPattern line.data = some ("File format: ".data ++ core)) :
    ParseFormat line = .ok (String.mk core) := by
  simp only [ParseFormat, FindString, h]
  exact sliceFrom_lit _ core _ rfl (by decide)

/-- What `ParseFunction` does on at least 5 fields, in every trace state: it panics (an
enter record with fewer than 10 fields, a return record with fewer than 6), or it returns
the zero value and leaves the trace alone (a kind other than "0", "1", "R"), or it assigns
to the id `toInt(field[1])` a record `g r` computed from the record `r` found at that id,
whose name is `field[5]` for an enter record and the name of `r` otherwise. -/
theorem ParseFunction_outcome (lib : GoLib F T) (d i k t m : String) (rest : List String) :
    ((k = "0" ∧ rest.length < 5 ∨ k = "R" ∧ rest.length < 1) ∧
      ∃ p, ∀ x : XDebugTrace F T, ParseFunction lib x (d :: i :: k :: t :: m :: rest) = .error p) ∨
    ((k ≠ "0" ∧ k ≠ "1" ∧ k ≠ "R") ∧
      ∀ x : XDebugTrace F T,
        ParseFunction lib x (d :: i :: k :: t :: m :: rest) = .ok (XDebugFunction.zero lib, x)) ∨
    ((k = "0" ∧ 5 ≤ rest.length ∨ k = "1" ∨ k = "R" ∧ 1 ≤ rest.length) ∧
      ∃ g : XDebugFunction F → XDebugFunction F,
        (∀ r, (g r).name = if k = "0" then rest.getD 0 "" else r.name) ∧
        ∀ x : XDebugTrace F T,
          ParseFunction lib x (d :: i :: k :: t :: m :: rest) =
            .ok (g (mapIndex lib x.functions (toInt i)),
              { x with functions :=
                  mapAssign x.functions (toInt i) (g (mapIndex lib x.functions (toInt i))) })) := by
  by_cases h0 : k = "0"
  · subst h0
    rcases rest with _ | ⟨n, _ | ⟨intl, _ | ⟨p7, _ | ⟨fl, _ | ⟨ln, rest⟩⟩⟩⟩⟩
    · exact Or.inl ⟨Or.inl ⟨rfl, by simp⟩, .indexOutOfRange 5 5, fun x => by
        simp [ParseFunction, index, bind, Except.bind, pure, Except.pure]⟩
    · exact Or.inl ⟨Or.inl ⟨rfl, by simp⟩, .indexOutOfRange 6 6, fun x => by
        simp [ParseFunction, index, bind, Except.bind, pure, Except.pure]⟩
    · exact Or.inl ⟨Or.inl ⟨rfl, by simp⟩, .indexOutOfRange 8 7, fun x => by
        simp [ParseFunction, index, bind, Except.bind, pure, Except.pure]⟩
    · exact Or.inl ⟨Or.inl ⟨rfl, by simp⟩, .indexOutOfRange 8 8, fun x => by
        simp [ParseFunction, index, bind, Except.bind, pure, Except.pure]⟩
    · exact Or.inl ⟨Or.inl ⟨rfl, by simp⟩, .indexOutOfRange 9 9, fun x => by
        simp [ParseFunction, index, bind, Except.bind, pure, Except.pure]⟩
    · refine Or.inr (Or.inr ⟨Or.inl ⟨rfl, by simp⟩,
        fun _ =>
          { depth := toInt d, timeEnter := toFloat lib t, memoryEnter := toInt64 m,
            name := n, internal := intl, file := fl, line := ln,
            params := (if p7 ≠ "" then [p7] else if rest.length ≥ 2 then rest.drop 1 else []),
            timeExit := lib.fzero, memoryExit := 0, timeDiff := lib.fzero, memoryDiff := 0,
            ret := "", lines := [] },
        fun r => by simp, fun x => ParseFunction_enter lib x d i t m n intl p7 fl ln rest⟩)
  · by_cases h1 : k = "1"
    · subst h1
      exact Or.inr (Or.inr ⟨Or.inr (Or.inl rfl),
        fun r =>
          { r with timeExit := toFloat lib t, memoryExit := toInt64 m,
                   timeDiff := lib.fsub (toFloat lib t) r.timeEnter,
                   memoryDiff := wrap64 (toInt64 m - r.memoryEnter) },
        fun r => by simp, fun x => ParseFunction_exit lib x d i t m rest⟩)
    · by_cases hR : k = "R"
      · subst hR
        rcases rest with _ | ⟨p5, rest⟩
        · exact Or.inl ⟨Or.inr ⟨rfl, by simp⟩, .indexOutOfRange 5 5, fun x => by
            simp [ParseFunction, index, bind, Except.bind, pure, Except.pure]⟩
        · exact Or.inr (Or.inr ⟨Or.inr (Or.inr ⟨rfl, by simp⟩),
            fun r => { r with ret := p5 },
            fun r => by simp, fun x => ParseFunction_return lib x d i t m p5 rest⟩)
      · exact Or.inr (Or.inl ⟨⟨h0, h1, hR⟩, fun x =>
          ParseFunction_other lib x d i k (t :: m :: rest) h0 h1 hR⟩)

/-- Looking up another key than the one assigned gives what it gave before. -/
theorem mapLookup_mapAssign_ne (m : FunctionsMap F) (k j : Int) (v : XDebugFunction F)
    (h : j ≠ k) : mapLookup (mapAssign m k v) j = mapLookup m j := by
  induction m with
  | nil =>
    have h1 : ¬ k = j := fun e => h e.symm
    simp [mapAssign, mapLookup, h1]
  | cons e rest ih =>
    obtain ⟨k1, v1⟩ := e
    by_cases h1 : k1 = k
    · subst h1
      have h2 : ¬ k1 = j := fun e => h e.symm
      simp [mapAssign, mapLookup, h2]
    · by_cases h2 : k1 = j
      · subst h2
        simp [mapAssign, mapLookup, h1]
      · simp [mapAssign, mapLookup, h1, h2, ih]

/-- A key has an entry exactly when it is among the keys of the table. -/
theorem mapLookup_isSome_iff (m : FunctionsMap F) (k : Int) :
    (mapLookup m k).isSome = true ↔ k ∈ m.map Prod.fst := by
  induction m with
  | nil => simp [mapLookup]
  | cons e rest ih =>
    obtain ⟨k1, v1⟩ := e
    by_cases h1 : k1 = k
    · simp [mapLookup, h1]
    · have h2 : ¬ k = k1 := fun e => h1 e.symm
      simp [mapLookup, h1, h2, ih]

/-- The record found at a key is an entry of the table. -/
theorem mem_of_mapLookup (m : FunctionsMap F) (k : Int) (r : XDebugFunction F)
    (h : mapLookup m k = some r) : (k, r) ∈ m := by
  induction m with
  | nil => simp [mapLookup] at h
  | cons e rest ih =>
    obtain ⟨k1, v1⟩ := e
    by_cases h1 : k1 = k
    · simp only [mapLookup, h1, if_true, Option.some.injEq] at h
      simp [h1, h]
    · simp only [mapLookup, h1, if_false] at h
      exact List.mem_cons_of_mem _ (ih h)

/-- An entry of the table after an assignment is an old entry or the assigned one. -/
theorem mem_mapAssign (m : FunctionsMap F) (k : Int) (v : XDebugFunction F)
    (e : Int × XDebugFunction F) (h : e ∈ mapAssign m k v) : e ∈ m ∨ e = (k, v) := by
  induction m with
  | nil =>
    simp only [mapAssign, List.mem_singleton] at h
    exact Or.inr h
  | cons e1 rest ih =>
    obtain ⟨k1, v1⟩ := e1
    by_cases h1 : k1 = k
    · simp only [mapAssign, h1, if_true, List.mem_cons] at h
      rcases h with h | h
      · exact Or.inr h
      · exact Or.inl (List.mem_cons_of_mem _ h)
    · simp only [mapAssign, h1, if_false, List.mem_cons] at h
      rcases h with h | h
      · exact Or.inl (by simp [h])
      · rcases ih h with h2 | h2
        · exact Or.inl (List.mem_cons_of_mem _ h2)
        · exact Or.inr h2

/-- The keys after an assignment: the same keys when the key was there, one more at the
end when it was not. -/
theorem keys_mapAssign (m : FunctionsMap F) (k : Int) (v : XDebugFunction F) :
    (mapAssign m k v).map Prod.fst =
      if k ∈ m.map Prod.fst then m.map Prod.fst else m.map Prod.fst ++ [k] := by
  induction m with
  | nil => simp [mapAssign]
  | cons e rest ih =>
    obtain ⟨k1, v1⟩ := e
    by_cases h1 : k1 = k
    · simp [mapAssign, h1]
    · have h2 : ¬ k = k1 := fun e => h1 e.symm
      simp only [mapAssign, h1, if_false, List.map_cons, ih, List.mem_cons, h2, false_or]
      split <;> simp

/-- An assignment adds at most one entry and removes none. -/
theorem length_mapAssign (m : FunctionsMap F) (k : Int) (v : XDebugFunction F) :
    m.length ≤ (mapAssign m k v).length ∧ (mapAssign m k v).length ≤ m.length + 1 := by
  have h := congrArg List.length (keys_mapAssign m k v)
  simp only [List.length_map] at h
  rw [h]
  split <;> simp

/-- What `ParseLine` does on a line, in every trace state: it panics (an enter record
with fewer than 10 fields, a return record with fewer than 6), or it returns the zero
value and leaves the trace alone (the line is no record of kind "0", "1", "R" with at
least 5 fields), or it assigns to the id of the line a record `g r` computed from the
record `r` found at that id, whose name is `field[5]` for an enter record and the name of
`r` otherwise. -/
theorem ParseLine_outcome (lib : GoLib F T) (line : String) :
    ((recordKind line = some "0" ∧ (Split line '\t').length < 10 ∨
        recordKind line = some "R" ∧ (Split line '\t').length < 6) ∧
      ∃ p, ∀ x : XDebugTrace F T, ParseLine lib x line = .error p) ∨
    (¬ isRecord line ∧
      ∀ x : XDebugTrace F T, ParseLine lib x line = .ok (XDebugFunction.zero lib, x)) ∨
    ((recordKind line = some "0" ∧ 10 ≤ (Split line '\t').length ∨
        recordKind line = some "1" ∨
        recordKind line = some "R" ∧ 6 ≤ (Split line '\t').length) ∧
      ∃ g : XDebugFunction F → XDebugFunction F,
        (∀ r, (g r).name =
          if recordKind line = some "0" then (Split line '\t').getD 5 "" else r.name) ∧
        ∀ x : XDebugTrace F T,
          ParseLine lib x line =
            .ok (g (mapIndex lib x.functions (recordId line)),
              { x with functions :=
                  (mapAssign x.functions (recordId line)
                    (g (mapIndex lib x.functions (recordId line)))) })) := by
  unfold isRecord recordKind recordId ParseLine
  generalize Split line '\t' = parts
  rcases parts with _ | ⟨d, _ | ⟨i, _ | ⟨k, _ | ⟨t, _ | ⟨m, rest⟩⟩⟩⟩⟩
  · exact Or.inr (Or.inl ⟨by simp, fun x => by simp [pure, Except.pure]⟩)
  · exact Or.inr (Or.inl ⟨by simp, fun x => by simp [pure, Except.pure]⟩)
  · exact Or.inr (Or.inl ⟨by simp, fun x => by simp [pure, Except.pure]⟩)
  · exact Or.inr (Or.inl ⟨by simp, fun x => by simp [pure, Except.pure]⟩)
  · exact Or.inr (Or.inl ⟨by simp, fun x => by simp [pure, Except.pure]⟩)
  · have hlen : ¬ (d :: i :: k :: t :: m :: rest).length < 5 := by simp
    simp only [hlen, if_false]
    rcases ParseFunction_outcome lib d i k t m rest with ⟨hk, hp⟩ | ⟨hk, hp⟩ | ⟨hk, g, hg, hp⟩
    · refine Or.inl ⟨?_, hp⟩
      rcases hk with ⟨rfl, hl⟩ | ⟨rfl, hl⟩
      · exact Or.inl ⟨by simp, by simp only [List.length_cons]; omega⟩
      · exact Or.inr ⟨by simp, by simp only [List.length_cons]; omega⟩
    · refine Or.inr (Or.inl ⟨?_, hp⟩)
      simp [hk.1, hk.2.1, hk.2.2]
    · refine Or.inr (Or.inr ⟨?_, g, ?_, ?_⟩)
      · rcases hk with ⟨rfl, hl⟩ | rfl | ⟨rfl, hl⟩
        · exact Or.inl ⟨by simp, by simp only [List.length_cons]; omega⟩
        · exact Or.inr (Or.inl (by simp))
        · exact Or.inr (Or.inr ⟨by simp, by simp only [List.length_cons]; omega⟩)
      · intro r
        rw [hg r]
        simp
      · intro x
        simpa using hp x

/-- Feeding lines one after the other: the last line is fed to the trace the lines
before it leave. -/
theorem parseLines_append (lib : GoLib F T) (x : XDebugTrace F T) (a b : List String) :
    parseLines lib x (a ++ b) =
      match parseLines lib x a with
      | .ok y => parseLines lib y b
      | .error p => .error p := by
  induction a generalizing x with
  | nil => rfl
  | cons l rest ih =>
    simp only [List.cons_append, parseLines]
    cases h : ParseLine lib x l with
    | error p => rfl
    | ok r => exact ih r.2

/-- Feeding lines whose enter records have at least 10 fields and whose return records
have at least 6 never panics. -/
theorem parseLines_total (lib : GoLib F T) (lines : List String)
    (hEnter : ∀ l ∈ lines, recordKind l = some "0" → 10 ≤ (Split l '\t').length)
    (hRet : ∀ l ∈ lines, recordKind l = some "R" → 6 ≤ (Split l '\t').length)
    (x : XDebugTrace F T) : ∃ y, parseLines lib x lines = .ok y := by
  induction lines generalizing x with
  | nil => exact ⟨x, rfl⟩
  | cons l rest ih =>
    have ih1 := ih (fun a ha => hEnter a (List.mem_cons_of_mem l ha))
      (fun a ha => hRet a (List.mem_cons_of_mem l ha))
    rcases ParseLine_outcome lib l with ⟨hk, _⟩ | ⟨_, hp⟩ | ⟨_, g, _, hp⟩
    · rcases hk with ⟨hk, hl⟩ | ⟨hk, hl⟩
      · have := hEnter l (List.mem_cons_self l rest) hk
        omega
      · have := hRet l (List.mem_cons_self l rest) hk
        omega
    · simp only [parseLines, hp x]
      exact ih1 x
    · simp only [parseLines, hp x]
      exact ih1 _


/-- Looking up any key after an assignment. -/
theorem mapLookup_mapAssign (m : FunctionsMap F) (k j : Int) (v : XDebugFunction F) :
    mapLookup (mapAssign m k v) j = if j = k then some v else mapLookup m j := by
  by_cases h : j = k
  · rw [if_pos h, h]
    exact mapLookup_mapAssign_self m k v
  · rw [if_neg h]
    exact mapLookup_mapAssign_ne m k j v h

/-- A trace has the same content as itself. -/
theorem sameTrace_refl (x : XDebugTrace F T) : sameTrace x x :=
  ⟨rfl, rfl, rfl, fun _ => rfl⟩

/-- A run has the same outcome as itself. -/
theorem sameRun_refl (r : Except GoPanic (XDebugTrace F T)) : sameRun r r := by
  cases r with
  | error p => rfl
  | ok x => exact sameTrace_refl x

/-- Feeding the same lines to two traces with the same content gives the same outcome:
the record parser only looks a table up by id. -/
theorem parseLines_sameTrace (lib : GoLib F T) (lines : List String)
    (x y : XDebugTrace F T) (h : sameTrace x y) :
    sameRun (parseLines lib x lines) (parseLines lib y lines) := by
  induction lines generalizing x y with
  | nil => exact h
  | cons l rest ih =>
    rcases ParseLine_outcome lib l with ⟨_, p, hp⟩ | ⟨_, hp⟩ | ⟨_, g, _, hp⟩
    · simp only [parseLines, hp x, hp y]
      rfl
    · simp only [parseLines, hp x, hp y]
      exact ih x y h
    · simp only [parseLines, hp x, hp y]
      apply ih
      obtain ⟨h1, h2, h3, h4⟩ := h
      have hidx : mapIndex lib x.functions (recordId l) = mapIndex lib y.functions (recordId l) := by
        simp [mapIndex, h4]
      refine ⟨h1, h2, h3, fun k => ?_⟩
      simp only [mapLookup_mapAssign, hidx, h4]

/-- The ids in the table after feeding lines that cannot panic: the ids there before and
the ids of the records fed, each once. -/
theorem parseLines_keys (lib : GoLib F T) (lines : List String)
    (hEnter : ∀ l ∈ lines, recordKind l = some "0" → 10 ≤ (Split l '\t').length)
    (hRet : ∀ l ∈ lines, recordKind l = some "R" → 6 ≤ (Split l '\t').length)
    (x : XDebugTrace F T) (hx : (x.functions.map Prod.fst).Nodup) :
    ∃ y, parseLines lib x lines = .ok y ∧ (y.functions.map Prod.fst).Nodup ∧
      ∀ k, k ∈ y.functions.map Prod.fst ↔
        k ∈ x.functions.map Prod.fst ∨ k ∈ (lines.filter (fun l => isRecord l)).map recordId := by
  induction lines generalizing x with
  | nil => exact ⟨x, rfl, hx, fun k => by simp⟩
  | cons l rest ih =>
    have ih1 := ih (fun a ha => hEnter a (List.mem_cons_of_mem l ha))
      (fun a ha => hRet a (List.mem_cons_of_mem l ha))
    rcases ParseLine_outcome lib l with ⟨hk, _⟩ | ⟨hk, hp⟩ | ⟨hk, g, _, hp⟩
    · rcases hk with ⟨hk, hl⟩ | ⟨hk, hl⟩
      · have := hEnter l (List.mem_cons_self l rest) hk
        omega
      · have := hRet l (List.mem_cons_self l rest) hk
        omega
    · obtain ⟨y, hy, hnd, hmem⟩ := ih1 x hx
      refine ⟨y, by simp only [parseLines, hp x, hy], hnd, fun k => ?_⟩
      rw [hmem k]
      simp [List.filter_cons, hk]
    · have hrec : isRecord l := by
        rcases hk with ⟨h, _⟩ | h | ⟨h, _⟩
        · exact Or.inl h
        · exact Or.inr (Or.inl h)
        · exact Or.inr (Or.inr h)
      have hnd1 : ((mapAssign x.functions (recordId l)
          (g (mapIndex lib x.functions (recordId l)))).map Prod.fst).Nodup := by
        rw [keys_mapAssign]
        split
        · exact hx
        · rename_i hnot
          exact List.Nodup.append hx (List.nodup_singleton _) (by simpa using hnot)
      obtain ⟨y, hy, hnd, hmem⟩ := ih1
        { x with functions :=
            (mapAssign x.functions (recordId l) (g (mapIndex lib x.functions (recordId l)))) }
        hnd1
      refine ⟨y, by simp only [parseLines, hp x, hy], hnd, fun k => ?_⟩
      rw [hmem k]
      simp only [keys_mapAssign, List.filter_cons, hrec, decide_True, if_true, List.map_cons,
        List.mem_cons]
      split
      · rename_i hin
        constructor
        · rintro (h | h)
          · exact Or.inl h
          · exact Or.inr (Or.inr h)
        · rintro (h | h | h)
          · exact Or.inl h
          · exact Or.inl (h ▸ hin)
          · exact Or.inr h
      · simp only [List.mem_append, List.mem_singleton]
        tauto

/-- The names in the table after feeding lines: no name is empty when none was before,
every enter record has a name, and every exit or return record follows an enter record
of its id or has its id among the ids `seen` that are in the table at the start. -/
theorem parseLines_names (lib : GoLib F T) (lines : List String) (seen : List Int)
    (x : XDebugTrace F T)
    (hinv1 : ∀ e ∈ x.functions, e.2.name ≠ "")
    (hinv2 : ∀ k ∈ seen, (mapLookup x.functions k).isSome = true)
    (hEnter : ∀ l ∈ lines, recordKind l = some "0" → (Split l '\t').getD 5 "" ≠ "")
    (hPrec : ∀ pre l suf, lines = pre ++ l :: suf →
      recordKind l = some "1" ∨ recordKind l = some "R" →
      recordId l ∈ seen ∨ ∃ e ∈ pre, recordKind e = some "0" ∧ recordId e = recordId l) :
    ∀ y, parseLines lib x lines = .ok y → ∀ e ∈ y.functions, e.2.name ≠ "" := by
  induction lines generalizing x seen with
  | nil =>
    intro y hy
    cases hy
    exact hinv1
  | cons l rest ih =>
    intro y hy
    have hEnter1 : ∀ a ∈ rest, recordKind a = some "0" → (Split a '\t').getD 5 "" ≠ "" :=
      fun a ha => hEnter a (List.mem_cons_of_mem l ha)
    rcases ParseLine_outcome lib l with ⟨_, p, hp⟩ | ⟨hk, hp⟩ | ⟨hk, g, hg, hp⟩
    · simp only [parseLines, hp x] at hy
      cases hy
    · simp only [parseLines, hp x] at hy
      refine ih seen x hinv1 hinv2 hEnter1 ?_ y hy
      intro pre a suf hsplit ha
      rcases hPrec (l :: pre) a suf (by rw [hsplit]; rfl) ha with h | ⟨e, he, hek, hei⟩
      · exact Or.inl h
      · rcases List.mem_cons.mp he with rfl | he
        · exact absurd (Or.inl hek) hk
        · exact Or.inr ⟨e, he, hek, hei⟩
    · simp only [parseLines, hp x] at hy
      by_cases h0 : recordKind l = some "0"
      · refine ih (recordId l :: seen) _ ?_ ?_ hEnter1 ?_ y hy
        · intro e he
          rcases mem_mapAssign _ _ _ e he with h | h
          · exact hinv1 e h
          · rw [h]
            simp only
            rw [hg, if_pos h0]
            exact hEnter l (List.mem_cons_self l rest) h0
        · intro k hk1
          simp only [mapLookup_mapAssign]
          split
          · rfl
          · rcases List.mem_cons.mp hk1 with h | h
            · contradiction
            · exact hinv2 k h
        · intro pre a suf hsplit ha
          rcases hPrec (l :: pre) a suf (by rw [hsplit]; rfl) ha with h | ⟨e, he, hek, hei⟩
          · exact Or.inl (List.mem_cons_of_mem _ h)
          · rcases List.mem_cons.mp he with rfl | he
            · exact Or.inl (by rw [← hei]; exact List.mem_cons_self _ _)
            · exact Or.inr ⟨e, he, hek, hei⟩
      · have hkind : recordKind l = some "1" ∨ recordKind l = some "R" := by
          rcases hk with ⟨h, _⟩ | h | ⟨h, _⟩
          · exact absurd h h0
          · exact Or.inl h
          · exact Or.inr h
        have hseen : recordId l ∈ seen := by
          rcases hPrec [] l rest rfl hkind with h | ⟨e, he, _⟩
          · exact h
          · simp at he
        have hsome := hinv2 _ hseen
        obtain ⟨r, hr⟩ := Option.isSome_iff_exists.mp hsome
        have hidx : mapIndex lib x.functions (recordId l) = r := mapIndex_of_some lib _ _ r hr
        have hrname : r.name ≠ "" := hinv1 _ (mem_of_mapLookup _ _ _ hr)
        refine ih seen _ ?_ ?_ hEnter1 ?_ y hy
        · intro e he
          rcases mem_mapAssign _ _ _ e he with h | h
          · exact hinv1 e h
          · rw [h]
            simp only
            rw [hg, if_neg h0, hidx]
            exact hrname
        · intro k hk1
          simp only [mapLookup_mapAssign]
          split
          · rfl
          · exact hinv2 k hk1
        · intro pre a suf hsplit ha
          rcases hPrec (l :: pre) a suf (by rw [hsplit]; rfl) ha with h | ⟨e, he, hek, hei⟩
          · exact Or.inl h
          · rcases List.mem_cons.mp he with rfl | he
            · exact absurd hek h0
            · exact Or.inr ⟨e, he, hek, hei⟩


/-- No container is closed when there are no changes. -/
theorem prefixesNonneg_nil (b : Int) (h : 0 ≤ b) : prefixesNonneg b [] := by
  intro n
  simpa using h

/-- Going through a first change and then through the others. -/
theorem prefixesNonneg_cons (b d : Int) (ds : List Int) (h0 : 0 ≤ b)
    (h : prefixesNonneg (b + d) ds) : prefixesNonneg b (d :: ds) := by
  intro n
  cases n with
  | zero => simpa using h0
  | succ k =>
    have := h k
    simp only [List.take_succ_cons, List.sum_cons]
    omega

/-- Going through two runs of changes one after the other. -/
theorem prefixesNonneg_append (b : Int) (as cs : List Int) (h1 : prefixesNonneg b as)
    (h2 : prefixesNonneg (b + as.sum) cs) : prefixesNonneg b (as ++ cs) := by
  intro n
  rw [List.take_append_eq_append_take, List.sum_append]
  by_cases hn : n ≤ as.length
  · have h := h1 n
    simp [Nat.sub_eq_zero_of_le hn]
    exact h
  · have h := h2 (n - as.length)
    rw [List.take_of_length_le (by omega)]
    omega

/-- Opening containers never makes the number of open containers negative. -/
theorem prefixesNonneg_opens (b : Int) (k : Nat) (h : 0 ≤ b) :
    prefixesNonneg b (List.replicate k 1) := by
  induction k generalizing b with
  | zero => exact prefixesNonneg_nil b h
  | succ k ih => exact prefixesNonneg_cons b 1 _ h (ih (b + 1) (by omega))

/-- Closing at most as many containers as are open. -/
theorem prefixesNonneg_closes (b : Int) (k : Nat) (h : (k : Int) ≤ b) :
    prefixesNonneg b (List.replicate k (-1)) := by
  induction k generalizing b with
  | zero => exact prefixesNonneg_nil b (by simpa using h)
  | succ k ih =>
    refine prefixesNonneg_cons b (-1) _ (by omega) (ih (b + -1) ?_)
    push_cast at h
    omega

/-- The sum of `k` times the same change. -/
theorem sum_replicate_int (k : Nat) (d : Int) : (List.replicate k d).sum = k * d := by
  induction k with
  | zero => simp
  | succ k ih =>
    simp only [List.replicate_succ, List.sum_cons, ih]
    push_cast
    ring

/-- The opening lines minus the closing lines is the sum of the changes of the lines. -/
theorem count_eq_sum_divDelta (ls : List String) :
    (countOpens ls : Int) - countCloses ls = (ls.map divDelta).sum := by
  induction ls with
  | nil => simp [countOpens, countCloses]
  | cons l rest ih =>
    have hnot : closesDiv l = true → opensDiv l = false := by
      intro h
      have hl : l = "</div>" := by simpa [closesDiv] using h
      rw [hl]
      decide
    simp only [countOpens, countCloses] at ih
    cases hc : closesDiv l <;> cases ho : opensDiv l
    · simp only [countOpens, countCloses, List.filter_cons, divDelta, hc, ho, List.map_cons,
        List.sum_cons, Bool.false_eq_true, if_false]
      omega
    · simp only [countOpens, countCloses, List.filter_cons, divDelta, hc, ho, List.map_cons,
        List.sum_cons, Bool.false_eq_true, if_false, if_true, List.length_cons]
      push_cast
      omega
    · simp only [countOpens, countCloses, List.filter_cons, divDelta, hc, ho, List.map_cons,
        List.sum_cons, Bool.false_eq_true, if_false, if_true, List.length_cons]
      push_cast
      omega
    · rw [hnot hc] at ho
      cases ho

/-- A line that starts neither with `<d` nor with `</` changes no container. -/
theorem divDelta_other (l : String) (a b : Char) (r : List Char) (h : l.data = a :: b :: r)
    (hab : ¬ (a = '<' ∧ (b = 'd' ∨ b = '/'))) : divDelta l = 0 := by
  have hc : closesDiv l = false := by
    simp only [closesDiv, decide_eq_false_iff_not]
    intro hl
    rw [hl] at h
    have h1 : a = '<' ∧ b = '/' := by
      have h2 : ("</div>" : String).data = '<' :: '/' :: ['d', 'i', 'v', '>'] := rfl
      rw [h2] at h
      simp only [List.cons.injEq] at h
      exact ⟨h.1.symm, h.2.1.symm⟩
    exact hab ⟨h1.1, Or.inr h1.2⟩
  have ho : opensDiv l = false := by
    have h2 : ("<div" : String).data = '<' :: 'd' :: ['i', 'v'] := rfl
    have hpre : ("<div" : String).data.isPrefixOf l.data = false := by
      rw [h, h2]
      by_cases ha : a = '<'
      · by_cases hb : b = 'd'
        · exact absurd ⟨ha, Or.inl hb⟩ hab
        · have hb1 : ¬ 'd' = b := fun e => hb e.symm
          simp [List.isPrefixOf, hb1]
      · have ha1 : ¬ '<' = a := fun e => ha e.symm
        simp [List.isPrefixOf, ha1]
    simp only [opensDiv, hpre, Bool.false_and]
  simp [divDelta, hc, ho]

/-- The changes of the lines `ToHtml` adds before the loop: two containers are opened
and closed again. -/
theorem divDelta_htmlHeader :
    htmlHeader.map divDelta = [0, 0, 0, 0, 1, 0, 1, 0, 0, 0, 0, -1, -1] := by
  decide

/-- The changes of the lines for one record: three containers are opened and closed
again, whatever the strings of the record are. -/
theorem divDelta_htmlRecordLines (lib : GoLib F T) (f : XDebugFunction F) :
    (htmlRecordLines lib f).map divDelta =
      [1, 1, 0, 0] ++ (if f.ret ≠ "" then [0] else []) ++ [-1, 1, 0, 0, 0, 0, -1, -1] := by
  have hcls : divDelta ("<div class=\"" ++ (if f.internal = "1" then "f" ++ " i" else "f") ++ "\">")
      = 1 := by
    split <;> decide
  have h1 : divDelta "<div class=\"func\">" = 1 := by decide
  have h2 : divDelta "<div class=\"data\">" = 1 := by decide
  have h3 : divDelta "</div>" = -1 := by decide
  have hn : divDelta ("<span class=\"name\">" ++ f.name ++ "</span>") = 0 :=
    divDelta_other _ '<' 's' _ rfl (by decide)
  have hp : divDelta ("<span class=\"params short\">" ++ join "," f.params ++ "</span>") = 0 :=
    divDelta_other _ '<' 's' _ rfl (by decide)
  have hr : divDelta ("→ <span class=\"return short\">" ++ f.ret ++ "</span>") = 0 :=
    divDelta_other _ '→' ' ' _ rfl (by decide)
  have hf : divDelta ("<span class=\"file\" title=\"" ++ f.file ++ ":" ++ f.line ++ "\">" ++
      f.file ++ ":" ++ f.line ++ "</span>") = 0 :=
    divDelta_other _ '<' 's' _ rfl (by decide)
  have ht : divDelta ("<span class=\"timediff\">" ++ lib.FormatFloat f.timeDiff ++ "</span>") = 0 :=
    divDelta_other _ '<' 's' _ rfl (by decide)
  have hm : divDelta ("<span class=\"memorydiff\">" ++ runeString f.memoryDiff ++ "</span>") = 0 :=
    divDelta_other _ '<' 's' _ rfl (by decide)
  have he : divDelta ("<span class=\"time\">" ++ lib.FormatFloat f.timeEnter ++ "</span>") = 0 :=
    divDelta_other _ '<' 's' _ rfl (by decide)
  simp only [htmlRecordLines, List.map_append, List.map_cons, List.map_nil, hcls, h1, h2, h3,
    hn, hp, hf, ht, hm, he]
  split <;> simp [hr]

/-- The changes of the lines that move from nesting `level` to `depth`. -/
theorem divDelta_htmlDepthLines (level depth : Int) :
    (htmlDepthLines level depth).map divDelta =
      if depth > level then List.replicate (depth - level).toNat 1
      else if depth < level then List.replicate (level - depth).toNat (-1)
      else [] := by
  have h1 : divDelta "<div class=\"d\">" = 1 := by decide
  have h3 : divDelta "</div>" = -1 := by decide
  unfold htmlDepthLines
  split
  · simp [List.map_replicate, h1]
  · split
    · simp [List.map_replicate, h3]
    · rfl


/-- The lines the loop of `ToHtml` adds for a first record and the others. -/
theorem htmlLoop_cons_fst (lib : GoLib F T) (level : Int) (k : Int) (f : XDebugFunction F)
    (rest : List (Int × XDebugFunction F)) :
    (htmlLoop lib level ((k, f) :: rest)).1 =
      htmlDepthLines level f.depth ++ htmlRecordLines lib f ++ (htmlLoop lib f.depth rest).1 := by
  simp only [htmlLoop]

/-- The level the loop of `ToHtml` ends at, after a first record and the others. -/
theorem htmlLoop_cons_snd (lib : GoLib F T) (level : Int) (k : Int) (f : XDebugFunction F)
    (rest : List (Int × XDebugFunction F)) :
    (htmlLoop lib level ((k, f) :: rest)).2 = (htmlLoop lib f.depth rest).2 := by
  simp only [htmlLoop]

/-- The lines for one record open and close the same number of containers and never
close more than they opened. -/
theorem htmlRecordLines_balance (lib : GoLib F T) (f : XDebugFunction F) (b : Int)
    (hb : 0 ≤ b) :
    ((htmlRecordLines lib f).map divDelta).sum = 0 ∧
    prefixesNonneg b ((htmlRecordLines lib f).map divDelta) := by
  rw [divDelta_htmlRecordLines]
  split
  · refine ⟨by decide, ?_⟩
    simp only [List.cons_append, List.nil_append]
    repeat (first
      | exact prefixesNonneg_nil _ (by omega)
      | refine prefixesNonneg_cons _ _ _ (by omega) ?_)
  · refine ⟨by decide, ?_⟩
    simp only [List.cons_append, List.nil_append, List.append_nil]
    repeat (first
      | exact prefixesNonneg_nil _ (by omega)
      | refine prefixesNonneg_cons _ _ _ (by omega) ?_)

/-- The lines that move from nesting `level` to `depth`, both not negative, change the
number of open containers by `depth - level` and never make it negative. -/
theorem htmlDepthLines_balance (level depth : Int) (hl : 0 ≤ level) (hd : 0 ≤ depth) :
    ((htmlDepthLines level depth).map divDelta).sum = depth - level ∧
    prefixesNonneg level ((htmlDepthLines level depth).map divDelta) := by
  rw [divDelta_htmlDepthLines]
  split
  · refine ⟨?_, prefixesNonneg_opens _ _ hl⟩
    rw [sum_replicate_int]
    omega
  · split
    · refine ⟨?_, prefixesNonneg_closes _ _ (by omega)⟩
      rw [sum_replicate_int]
      omega
    · refine ⟨?_, prefixesNonneg_nil _ hl⟩
      simp only [List.sum_nil]
      omega

/-- The loop of `ToHtml` over records of non-negative depth, started at a non-negative
level: it ends at a non-negative level, changes the number of open containers by the
difference of the two levels, and never makes it negative. -/
theorem htmlLoop_balance (lib : GoLib F T) (visit : List (Int × XDebugFunction F))
    (hd : ∀ e ∈ visit, 0 ≤ e.2.depth) (level : Int) (hl : 0 ≤ level) :
    0 ≤ (htmlLoop lib level visit).2 ∧
    ((htmlLoop lib level visit).1.map divDelta).sum = (htmlLoop lib level visit).2 - level ∧
    prefixesNonneg level ((htmlLoop lib level visit).1.map divDelta) := by
  induction visit generalizing level with
  | nil =>
    refine ⟨hl, ?_, prefixesNonneg_nil _ hl⟩
    simp [htmlLoop]
  | cons e rest ih =>
    obtain ⟨k, f⟩ := e
    have hf : 0 ≤ f.depth := hd (k, f) (List.mem_cons_self _ _)
    obtain ⟨ih1, ih2, ih3⟩ := ih (fun a ha => hd a (List.mem_cons_of_mem _ ha)) f.depth hf
    obtain ⟨hd1, hd2⟩ := htmlDepthLines_balance level f.depth hl hf
    obtain ⟨hr1, hr2⟩ := htmlRecordLines_balance lib f f.depth hf
    rw [htmlLoop_cons_fst, htmlLoop_cons_snd]
    simp only [List.map_append, List.sum_append, hd1, hr1, ih2]
    refine ⟨ih1, by omega, ?_⟩
    refine prefixesNonneg_append _ _ _ (prefixesNonneg_append _ _ _ hd2 ?_) ?_
    · rw [hd1]
      have : level + (f.depth - level) = f.depth := by omega
      rw [this]
      exact hr2
    · rw [List.sum_append, hd1, hr1]
      have : level + (f.depth - level + 0) = f.depth := by omega
      rw [this]
      exact ih3


/-- A line that is no record of kind "0", "1", "R" with at least 5 fields is dropped by
`ParseLine`: the zero value is returned, the trace is left alone. -/
theorem ParseLine_of_not_record (lib : GoLib F T) (x : XDebugTrace F T) (line : String)
    (h : ¬ isRecord line) : ParseLine lib x line = .ok (XDebugFunction.zero lib, x) := by
  rcases ParseLine_outcome lib line with ⟨hk, _⟩ | ⟨_, hp⟩ | ⟨hk, _⟩
  · rcases hk with ⟨hk, _⟩ | ⟨hk, _⟩
    · exact absurd (Or.inl hk) h
    · exact absurd (Or.inr (Or.inr hk)) h
  · exact hp x
  · rcases hk with ⟨hk, _⟩ | hk | ⟨hk, _⟩
    · exact absurd (Or.inl hk) h
    · exact absurd (Or.inr (Or.inl hk)) h
    · exact absurd (Or.inr (Or.inr hk)) h

/-- The header fields of the trace are carried through the loop over the lines: feeding
lines to a trace with other header fields gives the same outcome with those fields. -/
theorem parseLines_header (lib : GoLib F T) (lines : List String) (x : XDebugTrace F T)
    (v : String) (fmt : Int) (ts : T) :
    parseLines lib { x with version := v, format := fmt, start_ts := ts } lines =
      (parseLines lib x lines).map
        (fun y => { y with version := v, format := fmt, start_ts := ts }) := by
  induction lines generalizing x with
  | nil => rfl
  | cons l rest ih =>
    rcases ParseLine_outcome lib l with ⟨_, p, hp⟩ | ⟨_, hp⟩ | ⟨_, g, _, hp⟩
    · simp only [parseLines, hp]
      rfl
    · simp only [parseLines, hp]
      exact ih x
    · simp only [parseLines, hp]
      exact ih
        { x with functions :=
            (mapAssign x.functions (recordId l) (g (mapIndex lib x.functions (recordId l)))) }

/-- The first character after a maximal run of digits is not a digit. -/
theorem dropWhile_isDigit_head (l : List Char) :
    ∀ c ∈ (l.dropWhile Char.isDigit).take 1, c.isDigit = false := by
  induction l with
  | nil => simp
  | cons a rest ih =>
    by_cases ha : a.isDigit = true
    · simpa [List.dropWhile, ha] using ih
    · have ha1 : a.isDigit = false := by simpa using ha
      simp [List.dropWhile, ha1]


end Lemmas

/-! ## The record parser on malformed lines -/

section Claims

variable {F T : Type}

/-- C1: a line that splits on the tab character into fewer than 5 fields makes `ParseLine`
return the zero-valued record and leave the trace, and with it the functions table,
exactly as it was.  Feeding any sequence of such lines leaves the trace as it was, so a
new trace still has a table with zero entries afterwards. -/
theorem ParseLine_short_line_no_effect (lib : GoLib F T) (x : XDebugTrace F T)
    (line : String) (lines : List String)
    (hline : (Split line '\t').length < 5)
    (hlines : ∀ l ∈ lines, (Split l '\t').length < 5) :
    ParseLine lib x line = .ok (XDebugFunction.zero lib, x) ∧
    parseLines lib x lines = .ok x ∧
    ∃ y, parseLines lib (newTrace lib) lines = .ok y ∧ y.functions.length = 0 :=
  ⟨ParseLine_of_short lib x line hline, parseLines_of_short lib x lines hlines,
    newTrace lib, parseLines_of_short lib (newTrace lib) lines hlines, rfl⟩

/-- The two lines of `Test_invalidLine` leave a new trace with an empty table. -/
theorem ParseLine_short_line_no_effect_witness :
    (Split "0.162800\t552" '\t').length < 5 ∧
    (∀ l ∈ ["TRACE END   [2017-03-14 14:34:51]", "0.162800\t552"],
      (Split l '\t').length < 5) ∧
    ∃ y, parseLines demoLib (newTrace demoLib)
        ["TRACE END   [2017-03-14 14:34:51]", "0.162800\t552"] = .ok y ∧
      y.functions.length = 0 :=
  ⟨by decide, by decide,
    (ParseLine_short_line_no_effect demoLib (newTrace demoLib) "0.162800\t552"
      ["TRACE END   [2017-03-14 14:34:51]", "0.162800\t552"] (by decide) (by decide)).2.2⟩

/-- C2: `ParseLine` does abort on some lines.  An enter record with 5 fields passes the
check `len(parts) < 5` and panics at `parts[5]`, in every trace state; so does a return
record with 5 fields. -/
theorem ParseLine_panics_on_short_record (lib : GoLib F T) (x : XDebugTrace F T) :
    ParseLine lib x "1\t0\t0\t0.000301\t369752" = .error (.indexOutOfRange 5 5) ∧
    ParseLine lib x "2\t1\tR\t\t" = .error (.indexOutOfRange 5 5) := by
  have h1 : Split "1\t0\t0\t0.000301\t369752" '\t' = ["1", "0", "0", "0.000301", "369752"] := by
    decide
  have h2 : Split "2\t1\tR\t\t" '\t' = ["2", "1", "R", "", ""] := by decide
  constructor
  · rw [ParseLine_of_long lib x _ (by rw [h1]; decide), h1]
    simp [ParseFunction, index, bind, Except.bind, pure, Except.pure]
  · rw [ParseLine_of_long lib x _ (by rw [h2]; decide), h2]
    simp [ParseFunction, index, bind, Except.bind, pure, Except.pure]

/-! ## Enter, exit and return records -/

/-- C3, as stated, fails when the difference of the two memory values leaves the `int64`
range: an enter record with memory `-1` followed by an exit record with memory
`9223372036854775807` for the same id stores `memoryDiff = -9223372036854775808`, which
is not the integer difference `9223372036854775808` of the two memory fields. -/
theorem exit_memoryDiff_counterexample :
    ∃ f1 x1 f2 x2,
      ParseLine demoLib (newTrace demoLib) "1\t1\t0\t0\t-1\tf\t0\t\tindex.php\t1" = .ok (f1, x1) ∧
      ParseLine demoLib x1 "1\t1\t1\t0\t9223372036854775807" = .ok (f2, x2) ∧
      mapLookup x2.functions 1 = some f2 ∧
      f1.memoryEnter = -1 ∧ f2.memoryExit = 9223372036854775807 ∧
      f2.memoryDiff = -9223372036854775808 ∧
      f2.memoryDiff ≠ f2.memoryExit - f1.memoryEnter :=
  ⟨_, _, _, _, rfl, rfl, by decide, by decide, by decide, by decide, by decide⟩

/-- C3, amended: an exit record (kind "1", at least 5 fields) with id `i`, applied to any
trace state, stores at `i` a record with `timeExit = toFloat(field[3])`,
`memoryExit = toInt64(field[4])`, `timeDiff = timeExit - timeEnter` and
`memoryDiff = memoryExit - memoryEnter` computed in `int64`, that is wrapped to 64 bits,
where `timeEnter` and `memoryEnter` are the values stored at `i` before (zero if `i` was
absent).  Whenever the exact difference is in the `int64` range, `memoryDiff` is exactly
that difference.  Hence for an enter record followed by an exit record of the same id,
`memoryDiff` is the wrapped difference of the two memory fields, and exactly their
difference when neither memory value is negative. -/
theorem exit_sets_differences (lib : GoLib F T) (x : XDebugTrace F T)
    (d i t m : String) (rest : List String)
    (de te me n intl p7 fl ln : String) (reste : List String) :
    (∃ f x1,
      ParseFunction lib x (d :: i :: "1" :: t :: m :: rest) = .ok (f, x1) ∧
      mapLookup x1.functions (toInt i) = some f ∧
      f.timeExit = toFloat lib t ∧
      f.memoryExit = toInt64 m ∧
      f.timeDiff = lib.fsub f.timeExit (mapIndex lib x.functions (toInt i)).timeEnter ∧
      f.memoryDiff = wrap64 (f.memoryExit - (mapIndex lib x.functions (toInt i)).memoryEnter) ∧
      (mapLookup x.functions (toInt i) = none →
        mapIndex lib x.functions (toInt i) = XDebugFunction.zero lib) ∧
      (∀ r, mapLookup x.functions (toInt i) = some r → mapIndex lib x.functions (toInt i) = r) ∧
      (-(2 ^ 63) ≤ f.memoryExit - (mapIndex lib x.functions (toInt i)).memoryEnter →
        f.memoryExit - (mapIndex lib x.functions (toInt i)).memoryEnter < 2 ^ 63 →
        f.memoryDiff = f.memoryExit - (mapIndex lib x.functions (toInt i)).memoryEnter)) ∧
    (∃ f1 x1 f2 x2,
      ParseFunction lib x
        (de :: i :: "0" :: te :: me :: n :: intl :: p7 :: fl :: ln :: reste) = .ok (f1, x1) ∧
      ParseFunction lib x1 (d :: i :: "1" :: t :: m :: rest) = .ok (f2, x2) ∧
      mapLookup x2.functions (toInt i) = some f2 ∧
      f2.timeDiff = lib.fsub (toFloat lib t) (toFloat lib te) ∧
      f2.memoryDiff = wrap64 (toInt64 m - toInt64 me) ∧
      (0 ≤ toInt64 me → 0 ≤ toInt64 m → f2.memoryDiff = toInt64 m - toInt64 me)) := by
  constructor
  · refine ⟨_, _, ParseFunction_exit lib x d i t m rest, mapLookup_mapAssign_self _ _ _,
      rfl, rfl, rfl, rfl, mapIndex_of_none lib _ _, mapIndex_of_some lib _ _, ?_⟩
    intro h1 h2
    exact wrap64_of_range _ h1 h2
  · refine ⟨_, _, _, _, ParseFunction_enter lib x de i te me n intl p7 fl ln reste,
      ParseFunction_exit lib _ d i t m rest, mapLookup_mapAssign_self _ _ _, ?_, ?_, ?_⟩
    · simp [mapIndex, mapLookup_mapAssign_self]
    · simp [mapIndex, mapLookup_mapAssign_self]
    · intro h1 h2
      have hm := toInt64_range m
      have hme := toInt64_range me
      simp only [mapIndex, mapLookup_mapAssign_self, Option.getD_some]
      apply wrap64_of_range
      · norm_num at hm hme ⊢
        omega
      · norm_num at hm hme ⊢
        omega

/-- The enter and exit lines of `Test_ParseFunctionPair`: the memory fields `369752` and
`369784` are not negative and give `memoryDiff = 32`. -/
theorem exit_sets_differences_witness :
    0 ≤ toInt64 "369752" ∧ 0 ≤ toInt64 "369784" ∧
    ∃ f1 x1 f2 x2,
      ParseFunction demoLib (newTrace demoLib)
        ["2", "1", "0", "0.000318", "369752", "define", "0", "", "./index.php", "20", "2",
          "\x27ENVIRONMENT\x27", "\x27production\x27"] = .ok (f1, x1) ∧
      ParseFunction demoLib x1 ["2", "1", "1", "0.000327", "369784"] = .ok (f2, x2) ∧
      mapLookup x2.functions 1 = some f2 ∧
      f2.memoryDiff = 32 := by
  refine ⟨by decide, by decide, ?_⟩
  obtain ⟨f1, x1, f2, x2, h1, h2, h3, _, _, h6⟩ :=
    (exit_sets_differences demoLib (newTrace demoLib) "2" "1" "0.000327" "369784" []
      "2" "0.000318" "369752" "define" "0" "" "./index.php" "20"
      ["2", "\x27ENVIRONMENT\x27", "\x27production\x27"]).2
  exact ⟨f1, x1, f2, x2, h1, h2, h3, (h6 (by decide) (by decide)).trans (by decide)⟩

/-- C4: an enter record (kind "0") with at least 10 fields and id `i = toInt(field[1])`
makes `ParseFunction` return and store at `i` one and the same record `f`, in every trace
state: `f` has `depth = toInt(field[0])`, `timeEnter = toFloat(field[3])`,
`memoryEnter = toInt64(field[4])`, `name = field[5]`, `internal = field[6]`,
`file = field[8]`, `line = field[9]`, the four exit fields zero and `ret` empty.  As `f` is
fixed before the trace state is chosen, nothing stored at `i` before survives. -/
theorem enter_record_overwrites (lib : GoLib F T)
    (d i t m n intl p7 fl ln : String) (rest : List String) :
    ∃ f : XDebugFunction F,
      f.depth = toInt d ∧ f.timeEnter = toFloat lib t ∧ f.memoryEnter = toInt64 m ∧
      f.name = n ∧ f.internal = intl ∧ f.file = fl ∧ f.line = ln ∧
      f.timeExit = lib.fzero ∧ f.memoryExit = 0 ∧ f.timeDiff = lib.fzero ∧
      f.memoryDiff = 0 ∧ f.ret = "" ∧
      ∀ x : XDebugTrace F T,
        ParseFunction lib x (d :: i :: "0" :: t :: m :: n :: intl :: p7 :: fl :: ln :: rest) =
          .ok (f, { x with functions := mapAssign x.functions (toInt i) f }) ∧
        mapLookup (mapAssign x.functions (toInt i) f) (toInt i) = some f :=
  ⟨_, rfl, rfl, rfl, rfl, rfl, rfl, rfl, rfl, rfl, rfl, rfl, rfl, fun x =>
    ⟨ParseFunction_enter lib x d i t m n intl p7 fl ln rest, mapLookup_mapAssign_self _ _ _⟩⟩

/-- C5: the `params` of the record an enter record with at least 10 fields produces.  If
`field[7]` is not empty, `params` is `[field[7]]`, whatever the trailing fields; if
`field[7]` is empty and there are at least 12 fields, `params` is `fields[11:]` and has
`len(fields) - 11` entries; if `field[7]` is empty and there are fewer than 12 fields,
`params` is empty. -/
theorem enter_record_params (lib : GoLib F T) (x : XDebugTrace F T)
    (d i t m n intl p7 fl ln : String) (rest parts : List String)
    (hparts : parts = d :: i :: "0" :: t :: m :: n :: intl :: p7 :: fl :: ln :: rest) :
    ∃ f x1,
      ParseFunction lib x parts = .ok (f, x1) ∧
      mapLookup x1.functions (toInt i) = some f ∧
      (p7 ≠ "" → f.params = [p7]) ∧
      (p7 = "" → 12 ≤ parts.length →
        f.params = parts.drop 11 ∧ f.params.length = parts.length - 11) ∧
      (p7 = "" → parts.length < 12 → f.params = []) := by
  subst hparts
  refine ⟨_, _, ParseFunction_enter lib x d i t m n intl p7 fl ln rest,
    mapLookup_mapAssign_self _ _ _, ?_, ?_, ?_⟩
  · intro h
    simp [h]
  · intro h hl
    have hl2 : 2 ≤ rest.length := by
      simp only [List.length_cons] at hl
      omega
    simp [h, hl2]
  · intro h hl
    have hl2 : ¬ 2 ≤ rest.length := by
      simp only [List.length_cons] at hl
      omega
    simp [h, hl2]

/-- The enter line of `Test_ParseFunctionPair`: `field[7]` is empty, there are 13 fields,
and `params` is the two trailing fields. -/
theorem enter_record_params_witness :
    ∃ f x1,
      ParseFunction demoLib (newTrace demoLib)
        ["2", "1", "0", "0.000318", "369752", "define", "0", "", "./index.php", "20", "2",
          "\x27ENVIRONMENT\x27", "\x27production\x27"] = .ok (f, x1) ∧
      f.params = ["\x27ENVIRONMENT\x27", "\x27production\x27"] ∧ f.params.length = 2 := by
  obtain ⟨f, x1, h1, _, _, h4, _⟩ :=
    enter_record_params demoLib (newTrace demoLib) "2" "1" "0.000318" "369752" "define" "0" ""
      "./index.php" "20" ["2", "\x27ENVIRONMENT\x27", "\x27production\x27"] _ rfl
  exact ⟨f, x1, h1, h4 rfl (by decide)⟩

/-- C6: exit and return records keep what the enter record set.  In a trace state that
holds a record `r` at id `i`, an exit record (at least 5 fields) for `i` stores a record
whose `depth`, `timeEnter`, `memoryEnter`, `name`, `internal`, `file`, `line`, `params`
and `ret` are those of `r`; a return record (at least 6 fields) for `i` stores `r` with
`ret = field[5]` and every other field as in `r`.  Consequently an enter record, then an
exit record, then a return record for the same id leave at that id a record with the
name, depth, file, line and params of the enter record, the `memoryDiff` of the exit
record and the `ret` of the return record. -/
theorem exit_and_return_keep_enter_fields (lib : GoLib F T) (x : XDebugTrace F T)
    (r : XDebugFunction F) (d i t m : String) (rest : List String)
    (dr ir tr mr p5 : String) (restr : List String)
    (de ie te me n intl p7 fl ln : String) (reste : List String)
    (hr : mapLookup x.functions (toInt i) = some r)
    (hie : toInt ie = toInt i) (hir : toInt ir = toInt i) :
    (∃ f x1,
      ParseFunction lib x (d :: i :: "1" :: t :: m :: rest) = .ok (f, x1) ∧
      mapLookup x1.functions (toInt i) = some f ∧
      f.depth = r.depth ∧ f.timeEnter = r.timeEnter ∧ f.memoryEnter = r.memoryEnter ∧
      f.name = r.name ∧ f.internal = r.internal ∧ f.file = r.file ∧ f.line = r.line ∧
      f.params = r.params ∧ f.ret = r.ret) ∧
    (∃ f x1,
      ParseFunction lib x (dr :: ir :: "R" :: tr :: mr :: p5 :: restr) = .ok (f, x1) ∧
      mapLookup x1.functions (toInt i) = some f ∧
      f = { r with ret := p5 }) ∧
    (∃ f1 x1 f2 x2 f3 x3,
      ParseFunction lib x
        (de :: ie :: "0" :: te :: me :: n :: intl :: p7 :: fl :: ln :: reste) = .ok (f1, x1) ∧
      ParseFunction lib x1 (d :: i :: "1" :: t :: m :: rest) = .ok (f2, x2) ∧
      ParseFunction lib x2 (dr :: ir :: "R" :: tr :: mr :: p5 :: restr) = .ok (f3, x3) ∧
      mapLookup x3.functions (toInt i) = some f3 ∧
      f3.name = n ∧ f3.depth = toInt de ∧ f3.file = fl ∧ f3.line = ln ∧
      f3.params = f1.params ∧ f3.memoryDiff = f2.memoryDiff ∧
      f2.memoryDiff = wrap64 (toInt64 m - toInt64 me) ∧ f3.ret = p5) := by
  refine ⟨?_, ?_, ?_⟩
  · refine ⟨_, _, ParseFunction_exit lib x d i t m rest, mapLookup_mapAssign_self _ _ _, ?_⟩
    simp [mapIndex_of_some lib _ _ r hr]
  · refine ⟨_, _, ParseFunction_return lib x dr ir tr mr p5 restr, ?_, ?_⟩
    · simp only [hir]
      exact mapLookup_mapAssign_self _ _ _
    · simp [hir, mapIndex_of_some lib _ _ r hr]
  · refine ⟨_, _, _, _, _, _, ParseFunction_enter lib x de ie te me n intl p7 fl ln reste,
      ParseFunction_exit lib _ d i t m rest, ParseFunction_return lib _ dr ir tr mr p5 restr,
      ?_, ?_⟩
    · simp only [hir]
      exact mapLookup_mapAssign_self _ _ _
    · simp [mapIndex, mapLookup_mapAssign_self, hie, hir]

/-- The three lines of `Test_ParseFunctionPair`, the exit and return records being applied
to the trace that holds the enter record at id 1. -/
theorem exit_and_return_keep_enter_fields_witness :
    mapLookup ([(1, { XDebugFunction.zero demoLib with name := "define", depth := 2 })] :
      FunctionsMap Int) (toInt "1") =
      some { XDebugFunction.zero demoLib with name := "define", depth := 2 } ∧
    toInt "1" = toInt "1" ∧
    ∃ f1 x1 f2 x2 f3 x3,
      ParseFunction demoLib
        { newTrace demoLib with
          functions := [(1, { XDebugFunction.zero demoLib with name := "define", depth := 2 })] }
        ["2", "1", "0", "0.000318", "369752", "define", "0", "", "./index.php", "20", "2",
          "\x27ENVIRONMENT\x27", "\x27production\x27"] = .ok (f1, x1) ∧
      ParseFunction demoLib x1 ["2", "1", "1", "0.000327", "369784"] = .ok (f2, x2) ∧
      ParseFunction demoLib x2 ["2", "1", "R", "", "", "TRUE"] = .ok (f3, x3) ∧
      mapLookup x3.functions 1 = some f3 ∧
      f3.name = "define" ∧ f3.depth = 2 ∧ f3.file = "./index.php" ∧ f3.line = "20" ∧
      f3.params = f1.params ∧ f3.memoryDiff = 32 ∧ f3.ret = "TRUE" := by
  refine ⟨by decide, rfl, ?_⟩
  obtain ⟨f1, x1, f2, x2, f3, x3, h1, h2, h3, h4, h5, h6, h7, h8, h9, h10, h11, h12⟩ :=
    (exit_and_return_keep_enter_fields demoLib
      { newTrace demoLib with
        functions := [(1, { XDebugFunction.zero demoLib with name := "define", depth := 2 })] }
      { XDebugFunction.zero demoLib with name := "define", depth := 2 }
      "2" "1" "0.000327" "369784" []
      "2" "1" "" "" "TRUE" []
      "2" "1" "0.000318" "369752" "define" "0" "" "./index.php" "20"
      ["2", "\x27ENVIRONMENT\x27", "\x27production\x27"] (by decide) rfl rfl).2.2
  exact ⟨f1, x1, f2, x2, f3, x3, h1, h2, h3, h4, h5, h6.trans (by decide), h7, h8, h9,
    (h10.trans h11).trans (by decide), h12⟩

/-- C7: in a trace state with no record at id `i`, an exit record (at least 5 fields) or a
return record (at least 6 fields) for `i` is not an error.  The exit record returns, and
stores under `i`, the zero record with `timeExit = toFloat(field[3])`,
`memoryExit = toInt64(field[4])`, `timeDiff = timeExit` and `memoryDiff = memoryExit`;
the return record returns, and stores under `i`, the zero record with `ret = field[5]`.
The enter-side fields are all zero or empty.  (`hsub` is the fact `a - 0 = a` of
`float64` subtraction.) -/
theorem exit_or_return_without_enter (lib : GoLib F T) (x : XDebugTrace F T)
    (d i t m p5 : String) (rest : List String)
    (hsub : ∀ a, lib.fsub a lib.fzero = a)
    (habs : mapLookup x.functions (toInt i) = none) :
    (∃ f : XDebugFunction F,
      f = { XDebugFunction.zero lib with
              timeExit := toFloat lib t, memoryExit := toInt64 m,
              timeDiff := toFloat lib t, memoryDiff := toInt64 m } ∧
      ParseFunction lib x (d :: i :: "1" :: t :: m :: rest) =
        .ok (f, { x with functions := mapAssign x.functions (toInt i) f }) ∧
      mapLookup (mapAssign x.functions (toInt i) f) (toInt i) = some f ∧
      f.depth = 0 ∧ f.timeEnter = lib.fzero ∧ f.memoryEnter = 0 ∧ f.name = "" ∧
      f.internal = "" ∧ f.file = "" ∧ f.line = "" ∧ f.params = [] ∧ f.ret = "") ∧
    (∃ f : XDebugFunction F,
      f = { XDebugFunction.zero lib with ret := p5 } ∧
      ParseFunction lib x (d :: i :: "R" :: t :: m :: p5 :: rest) =
        .ok (f, { x with functions := mapAssign x.functions (toInt i) f }) ∧
      mapLookup (mapAssign x.functions (toInt i) f) (toInt i) = some f ∧
      f.depth = 0 ∧ f.timeEnter = lib.fzero ∧ f.memoryEnter = 0 ∧ f.name = "" ∧
      f.internal = "" ∧ f.file = "" ∧ f.line = "" ∧ f.params = [] ∧
      f.timeExit = lib.fzero ∧ f.memoryExit = 0 ∧ f.timeDiff = lib.fzero ∧
      f.memoryDiff = 0) := by
  have hm := toInt64_range m
  have hw : wrap64 (toInt64 m) = toInt64 m := wrap64_of_range _ hm.1 hm.2
  constructor
  · refine ⟨_, rfl, ?_, mapLookup_mapAssign_self _ _ _, rfl, rfl, rfl, rfl, rfl, rfl, rfl,
      rfl, rfl⟩
    rw [ParseFunction_exit, mapIndex_of_none lib _ _ habs]
    simp [XDebugFunction.zero, hsub, hw]
  · refine ⟨_, rfl, ?_, mapLookup_mapAssign_self _ _ _, rfl, rfl, rfl, rfl, rfl, rfl, rfl,
      rfl, rfl, rfl, rfl, rfl⟩
    rw [ParseFunction_return, mapIndex_of_none lib _ _ habs]

/-- An exit record for id 1 applied to a new trace. -/
theorem exit_or_return_without_enter_witness :
    (∀ a, demoLib.fsub a demoLib.fzero = a) ∧
    mapLookup (newTrace demoLib).functions (toInt "1") = none ∧
    ∃ f : XDebugFunction Int,
      ParseFunction demoLib (newTrace demoLib) ["2", "1", "1", "0.000327", "369784"] =
        .ok (f, { newTrace demoLib with functions := [(1, f)] }) ∧
      f.name = "" ∧ f.memoryEnter = 0 ∧ f.memoryExit = 369784 ∧ f.memoryDiff = 369784 := by
  refine ⟨fun a => sub_zero a, rfl, ?_⟩
  obtain ⟨f, hf, h1, _⟩ :=
    (exit_or_return_without_enter demoLib (newTrace demoLib) "2" "1" "0.000327" "369784" "" []
      (fun a => sub_zero a) rfl).1
  refine ⟨f, h1, ?_, ?_, ?_, ?_⟩ <;> rw [hf] <;> decide

/-- C8: a record with at least 5 fields whose kind `field[2]` is none of "0", "1", "R"
makes `ParseFunction`, and `ParseLine` on a line that splits into these fields, return
the zero-valued record and leave the trace, and with it the functions table, unchanged. -/
theorem unknown_kind_no_effect (lib : GoLib F T) (x : XDebugTrace F T) (line : String)
    (d i k t m : String) (rest : List String)
    (h0 : k ≠ "0") (h1 : k ≠ "1") (hR : k ≠ "R")
    (hline : Split line '\t' = d :: i :: k :: t :: m :: rest) :
    ParseFunction lib x (d :: i :: k :: t :: m :: rest) = .ok (XDebugFunction.zero lib, x) ∧
    ParseLine lib x line = .ok (XDebugFunction.zero lib, x) := by
  have hf := ParseFunction_other lib x d i k (t :: m :: rest) h0 h1 hR
  refine ⟨hf, ?_⟩
  rw [ParseLine_of_long lib x line (by simp [hline]), hline]
  exact hf

/-- A record of kind "2" leaves a new trace as it is. -/
theorem unknown_kind_no_effect_witness :
    ("2" : String) ≠ "0" ∧ ("2" : String) ≠ "1" ∧ ("2" : String) ≠ "R" ∧
    Split "3\t7\t2\t0.5\t100\tx" '\t' = ["3", "7", "2", "0.5", "100", "x"] ∧
    ParseLine demoLib (newTrace demoLib) "3\t7\t2\t0.5\t100\tx" =
      .ok (XDebugFunction.zero demoLib, newTrace demoLib) :=
  ⟨by decide, by decide, by decide, by decide,
    (unknown_kind_no_effect demoLib (newTrace demoLib) "3\t7\t2\t0.5\t100\tx"
      "3" "7" "2" "0.5" "100" ["x"] (by decide) (by decide) (by decide) (by decide)).2⟩

/-! ## The trace assembler and the header parsers -/

/-- C9, as stated, fails when the `TRACE START` line is itself a record: the loop of
`ParseContent` ranges over `lines[3:]`, which starts with that line.  On the four header
lines below, whose `TRACE START` line carries four tab-separated fields after the
timestamp, the header parsers succeed and the table of `ParseContent` holds one entry, at
id 7, whereas feeding `lines[4:]` (no line at all) to `ParseLine` from an empty table
leaves it empty. -/
theorem ParseContent_start_line_counterexample :
    ∃ x,
      ParseContent demoLib
        ["Version: 2.4.0", "File format: 4", "",
          "TRACE START [2017-03-14 14:34:51]\t7\t1\t0.000327\t369784"] = .ok x ∧
      x.version = "2.4.0" ∧ x.format = 4 ∧
      x.functions.length = 1 ∧ (mapLookup x.functions 7).isSome = true ∧
      ∃ y,
        parseLines demoLib (newTrace demoLib)
          (["Version: 2.4.0", "File format: 4", "",
            "TRACE START [2017-03-14 14:34:51]\t7\t1\t0.000327\t369784"].drop 4) = .ok y ∧
        y.functions.length = 0 ∧ x.functions ≠ y.functions :=
  ⟨_, rfl, rfl, rfl, rfl, rfl, _, rfl, rfl, by decide⟩

/-- C9, amended: for every list of at least 4 lines on which the header parsers succeed,
`ParseContent` has the outcome of feeding the lines from the `TRACE START` line on
(`lines[3:]`) in order to `ParseLine`, starting from an empty table, with the header
fields set; so its functions table is the table of that run.  The `TRACE START` line is
dropped by the record parser, and the outcome is that of feeding only the lines after it
(`lines[4:]`), whenever it is no record: it has fewer than 5 tab-separated fields or a
kind other than "0", "1", "R". -/
theorem ParseContent_feeds_from_start_line (lib : GoLib F T)
    (l0 l1 l2 l3 : String) (rest : List String) (v fs : String) (ts : T)
    (hv : ParseVersion l0 = .ok v) (hf : ParseFormat l1 = .ok fs)
    (ht : ParseStartTime lib l3 = .ok ts) :
    ParseContent lib (l0 :: l1 :: l2 :: l3 :: rest) =
      (parseLines lib (newTrace lib) ((l0 :: l1 :: l2 :: l3 :: rest).drop 3)).map
        (fun y => { y with version := v, format := (ParseInt fs 8).1, start_ts := ts }) ∧
    (∀ x, ParseContent lib (l0 :: l1 :: l2 :: l3 :: rest) = .ok x →
      ∃ y, parseLines lib (newTrace lib) ((l0 :: l1 :: l2 :: l3 :: rest).drop 3) = .ok y ∧
        x.functions = y.functions) ∧
    (¬ isRecord l3 →
      ParseContent lib (l0 :: l1 :: l2 :: l3 :: rest) =
        (parseLines lib (newTrace lib) ((l0 :: l1 :: l2 :: l3 :: rest).drop 4)).map
          (fun y => { y with version := v, format := (ParseInt fs 8).1, start_ts := ts }) ∧
      ∀ x, ParseContent lib (l0 :: l1 :: l2 :: l3 :: rest) = .ok x →
        ∃ y, parseLines lib (newTrace lib) ((l0 :: l1 :: l2 :: l3 :: rest).drop 4) = .ok y ∧
          x.functions = y.functions) := by
  have hmain : ParseContent lib (l0 :: l1 :: l2 :: l3 :: rest) =
      (parseLines lib (newTrace lib) (l3 :: rest)).map
        (fun y => { y with version := v, format := (ParseInt fs 8).1, start_ts := ts }) := by
    have h := parseLines_header lib (l3 :: rest) (newTrace lib) v (ParseInt fs 8).1 ts
    rw [← h]
    simp [ParseContent, index, bind, Except.bind, hv, hf, ht]
  have hfun : ∀ (ls : List String) (x : XDebugTrace F T),
      (parseLines lib (newTrace lib) ls).map
        (fun y => { y with version := v, format := (ParseInt fs 8).1, start_ts := ts }) = .ok x →
      ∃ y, parseLines lib (newTrace lib) ls = .ok y ∧ x.functions = y.functions := by
    intro ls x hx
    cases hy : parseLines lib (newTrace lib) ls with
    | error p =>
      rw [hy] at hx
      cases hx
    | ok y =>
      rw [hy] at hx
      cases hx
      exact ⟨y, rfl, rfl⟩
  have hdrop3 : (l0 :: l1 :: l2 :: l3 :: rest).drop 3 = l3 :: rest := rfl
  have hdrop4 : (l0 :: l1 :: l2 :: l3 :: rest).drop 4 = rest := rfl
  rw [hdrop3, hdrop4]
  refine ⟨hmain, fun x hx => hfun _ x (hmain ▸ hx), fun hrec => ?_⟩
  have hskip : parseLines lib (newTrace lib) (l3 :: rest) = parseLines lib (newTrace lib) rest := by
    simp only [parseLines, ParseLine_of_not_record lib (newTrace lib) l3 hrec]
  rw [hskip] at hmain
  exact ⟨hmain, fun x hx => hfun _ x (hmain ▸ hx)⟩

/-- The usual header followed by the three lines of `Test_ParseFunctionPair`: the
`TRACE START` line has no tab, and the table is the one the three records give. -/
theorem ParseContent_feeds_from_start_line_witness :
    ParseVersion "Version: 2.4.0" = .ok "2.4.0" ∧ ParseFormat "File format: 4" = .ok "4" ∧
    ¬ isRecord "TRACE START [2017-03-14 14:34:51]" ∧
    ∃ x y,
      ParseContent demoLib
        ["Version: 2.4.0", "File format: 4", "", "TRACE START [2017-03-14 14:34:51]",
          "2\t1\t0\t0.000318\t369752\tdefine\t0\t\t./index.php\t20\t2\tENVIRONMENT\tproduction",
          "2\t1\t1\t0.000327\t369784", "2\t1\tR\t\t\tTRUE"] = .ok x ∧
      parseLines demoLib (newTrace demoLib)
        ["2\t1\t0\t0.000318\t369752\tdefine\t0\t\t./index.php\t20\t2\tENVIRONMENT\tproduction",
          "2\t1\t1\t0.000327\t369784", "2\t1\tR\t\t\tTRUE"] = .ok y ∧
      x.functions = y.functions ∧ x.functions.length = 1 := by
  refine ⟨rfl, rfl, by decide, ?_⟩
  have h := (ParseContent_feeds_from_start_line demoLib "Version: 2.4.0" "File format: 4" ""
    "TRACE START [2017-03-14 14:34:51]"
    ["2\t1\t0\t0.000318\t369752\tdefine\t0\t\t./index.php\t20\t2\tENVIRONMENT\tproduction",
      "2\t1\t1\t0.000327\t369784", "2\t1\tR\t\t\tTRUE"] "2.4.0" "4" _ rfl rfl rfl).2.2
    (by decide)
  obtain ⟨y, hy, hxy⟩ := h.2 _ rfl
  exact ⟨_, y, rfl, hy, hxy, rfl⟩

/-- A line without a match of the version pattern makes `ParseVersion` panic: the match
is the empty string, and `""[9:]` is out of bounds. -/
theorem ParseVersion_of_no_match (line : String)
    (h : findMatch versionPattern line.data = none) :
    ParseVersion line = .error (.sliceBoundsOutOfRange 9 0) := by
  simp only [ParseVersion, FindString, h, sliceFrom]
  rfl

/-- A line without a match of the file-format pattern makes `ParseFormat` panic: the match
is the empty string, and `""[13:]` is out of bounds. -/
theorem ParseFormat_of_no_match (line : String)
    (h : findMatch formatPattern line.data = none) :
    ParseFormat line = .error (.sliceBoundsOutOfRange 13 0) := by
  simp only [ParseFormat, FindString, h, sliceFrom]
  rfl

/-- C10: on a line that does not contain the pattern, `ParseVersion` and `ParseFormat` do
not return the empty string: `FindString` gives `""`, and slicing it after the literal
prefix panics with slice bounds out of range.  So do the `TRACE END` line for both, the
empty line, and a line that has the prefix `Version: ` but not the two characters the
pattern needs after it. -/
theorem header_parsers_panic_without_pattern :
    findMatch versionPattern "TRACE END   [2017-03-14 14:34:51]".data = none ∧
    ParseVersion "TRACE END   [2017-03-14 14:34:51]" = .error (.sliceBoundsOutOfRange 9 0) ∧
    findMatch formatPattern "TRACE END   [2017-03-14 14:34:51]".data = none ∧
    ParseFormat "TRACE END   [2017-03-14 14:34:51]" = .error (.sliceBoundsOutOfRange 13 0) ∧
    ParseVersion "" = .error (.sliceBoundsOutOfRange 9 0) ∧
    ParseFormat "" = .error (.sliceBoundsOutOfRange 13 0) ∧
    ParseVersion "Version: 2" = .error (.sliceBoundsOutOfRange 9 0) ∧
    ParseContent demoLib ["", "", "", ""] = .error (.sliceBoundsOutOfRange 9 0) :=
  ⟨by decide, rfl, by decide, rfl, rfl, rfl, rfl, rfl⟩

/-! ## The header parsers on well-formed and malformed lines -/

/-- C11, as stated, fails when the text that follows the pattern begins with a digit: the
digit is taken into the result.  `File format: 4` followed by `2` gives `42`, not `4`,
and `Version: 2.4.0` followed by `1 beta` gives `2.4.01`, not `2.4.0`. -/
theorem header_parsers_trailing_digit_counterexample :
    ParseFormat ("File format: " ++ "4" ++ "2") = .ok "42" ∧ ("42" : String) ≠ "4" ∧
    ParseVersion ("Version: " ++ "2" ++ "." ++ "4" ++ "." ++ "0" ++ "1 beta") = .ok "2.4.01" ∧
    ("2.4.01" : String) ≠ "2.4.0" :=
  ⟨rfl, by decide, rfl, by decide⟩

/-- C11, amended: for runs of decimal digits `X`, `Y`, `Z` and `N`,
`ParseVersion("Version: X.Y.Z")` returns `X.Y.Z` and `ParseFormat("File format: N")`
returns `N`, the text after the literal prefix.  When other text precedes the pattern, no
match of the pattern starting inside it, and other text follows the pattern, the result
is `X.Y.Z` (respectively `N`) followed by the digits, if any, with which the following
text begins; so it is exactly `X.Y.Z` (respectively `N`) when the following text does not
begin with a digit. -/
theorem header_parsers_extract (preV postV preF postF X Y Z N : String)
    (hX : ∀ c ∈ X.data, c.isDigit = true) (hY : ∀ c ∈ Y.data, c.isDigit = true)
    (hZ : ∀ c ∈ Z.data, c.isDigit = true) (hN : ∀ c ∈ N.data, c.isDigit = true)
    (hpreV : ∀ n, n < preV.data.length →
      matchHere versionPattern
        (preV.data.drop n ++ ("Version: " ++ X ++ "." ++ Y ++ "." ++ Z ++ postV).data) = none)
    (hpreF : ∀ n, n < preF.data.length →
      matchHere formatPattern (preF.data.drop n ++ ("File format: " ++ N ++ postF).data) = none) :
    ParseVersion ("Version: " ++ X ++ "." ++ Y ++ "." ++ Z) = .ok (X ++ "." ++ Y ++ "." ++ Z) ∧
    ParseFormat ("File format: " ++ N) = .ok N ∧
    ParseVersion (preV ++ ("Version: " ++ X ++ "." ++ Y ++ "." ++ Z ++ postV)) =
      .ok (X ++ "." ++ Y ++ "." ++ Z ++ String.mk (postV.data.takeWhile Char.isDigit)) ∧
    ParseFormat (preF ++ ("File format: " ++ N ++ postF)) =
      .ok (N ++ String.mk (postF.data.takeWhile Char.isDigit)) ∧
    ((∀ c ∈ postV.data.take 1, c.isDigit = false) →
      ParseVersion (preV ++ ("Version: " ++ X ++ "." ++ Y ++ "." ++ Z ++ postV)) =
        .ok (X ++ "." ++ Y ++ "." ++ Z)) ∧
    ((∀ c ∈ postF.data.take 1, c.isDigit = false) →
      ParseFormat (preF ++ ("File format: " ++ N ++ postF)) = .ok N) := by
  have hresV : ∀ tw : List Char,
      String.mk (X.data ++ '.' :: (Y.data ++ '.' :: (Z.data ++ tw))) =
        X ++ "." ++ Y ++ "." ++ Z ++ String.mk tw := by
    intro tw
    apply String.ext
    simp
  have hresF : ∀ tw : List Char, String.mk (N.data ++ tw) = N ++ String.mk tw := by
    intro tw
    apply String.ext
    simp
  have hdV : ("Version: " ++ X ++ "." ++ Y ++ "." ++ Z ++ postV).data =
      "Version: ".data ++ (X.data ++ '.' :: (Y.data ++ '.' :: ((Z.data ++
        postV.data.takeWhile Char.isDigit) ++ postV.data.dropWhile Char.isDigit))) := by
    simp [List.append_assoc, List.takeWhile_append_dropWhile]
  have hdF : ("File format: " ++ N ++ postF).data =
      "File format: ".data ++ ((N.data ++ postF.data.takeWhile Char.isDigit) ++
        postF.data.dropWhile Char.isDigit) := by
    simp [List.append_assoc, List.takeWhile_append_dropWhile]
  have hZV : ∀ c ∈ Z.data ++ postV.data.takeWhile Char.isDigit, c.isDigit = true := by
    intro c hc
    rcases List.mem_append.mp hc with h | h
    · exact hZ c h
    · exact List.mem_takeWhile_imp h
  have hNF : ∀ c ∈ N.data ++ postF.data.takeWhile Char.isDigit, c.isDigit = true := by
    intro c hc
    rcases List.mem_append.mp hc with h | h
    · exact hN c h
    · exact List.mem_takeWhile_imp h
  have hnil : ∀ c ∈ ([] : List Char).take 1, c.isDigit = false := by simp
  have htw : ∀ l : List Char, (∀ c ∈ l.take 1, c.isDigit = false) →
      l.takeWhile Char.isDigit = [] := by
    intro l hl
    cases l with
    | nil => rfl
    | cons a r =>
      have ha : a.isDigit = false := hl a (by simp)
      simp [List.takeWhile, ha]
  have hV : ParseVersion (preV ++ ("Version: " ++ X ++ "." ++ Y ++ "." ++ Z ++ postV)) =
      .ok (X ++ "." ++ Y ++ "." ++ Z ++ String.mk (postV.data.takeWhile Char.isDigit)) := by
    rw [← hresV]
    apply ParseVersion_of_findMatch
    rw [String.data_append, findMatch_skip _ _ _ hpreV, hdV]
    exact findMatch_of_matchHere _ _ _
      (matchHere_version X.data Y.data _ _ hX hY hZV (dropWhile_isDigit_head postV.data))
  have hF : ParseFormat (preF ++ ("File format: " ++ N ++ postF)) =
      .ok (N ++ String.mk (postF.data.takeWhile Char.isDigit)) := by
    rw [← hresF]
    apply ParseFormat_of_findMatch
    rw [String.data_append, findMatch_skip _ _ _ hpreF, hdF]
    exact findMatch_of_matchHere _ _ _
      (matchHere_format _ _ hNF (dropWhile_isDigit_head postF.data))
  have hempty : ∀ s : String, s ++ String.mk [] = s := by
    intro s
    apply String.ext
    simp
  refine ⟨?_, ?_, hV, hF, ?_, ?_⟩
  · have h := hresV []
    simp only [List.append_nil] at h
    rw [hempty] at h
    rw [← h]
    apply ParseVersion_of_findMatch
    have hm := matchHere_version X.data Y.data Z.data [] hX hY hZ hnil
    have hd : ("Version: " ++ X ++ "." ++ Y ++ "." ++ Z).data =
        "Version: ".data ++ (X.data ++ '.' :: (Y.data ++ '.' :: (Z.data ++ []))) := by simp
    rw [hd]
    exact findMatch_of_matchHere _ _ _ hm
  · apply ParseFormat_of_findMatch
    have hm := matchHere_format N.data [] hN hnil
    have hd : ("File format: " ++ N).data = "File format: ".data ++ (N.data ++ []) := by simp
    rw [hd]
    exact findMatch_of_matchHere _ _ _ hm
  · intro hpost
    rw [hV, htw _ hpost, hempty]
  · intro hpost
    rw [hF, htw _ hpost, hempty]

/-- The header scenario of the spec, the version behind a file-format pattern on the same
line, and the file format inside a longer line. -/
theorem header_parsers_extract_witness :
    (∀ c ∈ "2".data, c.isDigit = true) ∧ (∀ c ∈ "4".data, c.isDigit = true) ∧
    (∀ c ∈ "0".data, c.isDigit = true) ∧ (∀ c ∈ " (beta)".data.take 1, c.isDigit = false) ∧
    (∀ n, n < "File format: 4 ".data.length →
      matchHere versionPattern
        ("File format: 4 ".data.drop n ++
          ("Version: " ++ "2" ++ "." ++ "4" ++ "." ++ "0" ++ " (beta)").data) = none) ∧
    (∀ n, n < "Xdebug ".data.length →
      matchHere formatPattern ("Xdebug ".data.drop n ++ ("File format: " ++ "4" ++ "2 x").data)
        = none) ∧
    ParseVersion "Version: 2.4.0" = .ok "2.4.0" ∧
    ParseFormat "File format: 4" = .ok "4" ∧
    ParseVersion "File format: 4 Version: 2.4.0 (beta)" = .ok "2.4.0" ∧
    ParseFormat "Xdebug File format: 42 x" = .ok "42" := by
  have h := header_parsers_extract "File format: 4 " " (beta)" "Xdebug " "2 x" "2" "4" "0" "4"
    (by decide) (by decide) (by decide) (by decide) (by decide) (by decide)
  exact ⟨by decide, by decide, by decide, by decide, by decide, by decide,
    h.1, h.2.1, h.2.2.2.2.1 (by decide), h.2.2.2.1⟩

/-- The bytes of a line too short for the slice `line[13:32]` make `ParseStartTime`
panic. -/
theorem ParseStartTime_of_short (lib : GoLib F T) (line : String) (h : len line < 32) :
    ParseStartTime lib line = .error (.sliceBoundsOutOfRange 32 (len line)) := by
  have h13 : len "TRACE START [" = 13 := by decide
  have h19 : len "2006-01-02 15:04:05" = 19 := by decide
  simp [ParseStartTime, h13, h19, h]

/-- On a line of at least 32 bytes `ParseStartTime` parses the bytes 13 to 31, whatever
the first 13 bytes are. -/
theorem ParseStartTime_of_long (lib : GoLib F T) (line : String) (h : 32 ≤ len line) :
    ParseStartTime lib line = .ok (lib.timeParse (((bytes line).drop 13).take 19)) := by
  have h13 : len "TRACE START [" = 13 := by decide
  have h19 : len "2006-01-02 15:04:05" = 19 := by decide
  simp [ParseStartTime, h13, h19, Nat.not_lt.mpr h, toTime]

/-- C12: `ParseStartTime` does abort, and does not look at the prefix.  On a line shorter
than 32 bytes (the empty line, a line cut inside the timestamp) the slice
`line[13:32]` panics; on the line `TRACE END   [2017-03-14 14:34:51]`, which does not
start with `TRACE START [`, it returns what it returns on the well-formed line
`TRACE START [2017-03-14 14:34:51]`: the parsed bytes `2017-03-14 14:34:51`. -/
theorem ParseStartTime_panics_or_ignores_prefix (lib : GoLib F T) :
    ParseStartTime lib "" = .error (.sliceBoundsOutOfRange 32 0) ∧
    ParseStartTime lib "TRACE START [2017-03-14" = .error (.sliceBoundsOutOfRange 32 23) ∧
    ParseStartTime lib "TRACE END   [2017-03-14 14:34:51]" =
      .ok (lib.timeParse (bytes "2017-03-14 14:34:51")) ∧
    ParseStartTime lib "TRACE END   [2017-03-14 14:34:51]" =
      ParseStartTime lib "TRACE START [2017-03-14 14:34:51]" ∧
    ParseContent lib ["Version: 2.4.0", "File format: 4", "", "TRACE START"] =
      .error (.sliceBoundsOutOfRange 32 11) :=
  ⟨rfl, rfl, rfl, rfl, rfl⟩

/-! ## The scalar decoders -/

/-- C13, as stated, fails on numerals out of the 64-bit range: `toInt64` returns the
nearest bound of `int64`, not 0.  `9223372036854775808` gives `9223372036854775807`,
`-9223372036854775809` gives `-9223372036854775808`, and digits that leave `uint64`
give the bound even when garbage follows them. -/
theorem toInt64_out_of_range_counterexample :
    toInt64 "9223372036854775808" = 9223372036854775807 ∧
    toInt64 "9223372036854775808" ≠ 0 ∧
    toInt64 "-9223372036854775809" = -9223372036854775808 ∧
    toInt64 "99999999999999999999x" = 9223372036854775807 ∧
    toInt "9223372036854775808" = 9223372036854775807 := by
  decide

/-- C13, amended: `toInt64(s)` (and `toInt(s)`, which is the same function) is defined on
every string and its value is an `int64`.  On an optionally signed run of digits it is the
integer the numeral denotes when that fits `int64`, and otherwise the nearest bound,
`2^63 - 1` or `-2^63`.  It is 0 on the empty string, on a lone sign, and on a string whose
first character that is neither a leading sign nor a digit comes after digits that denote
less than `2^64`. -/
theorem toInt64_decodes (sg ds : List Char) (g : Char) (rest : List Char)
    (hsg : sg = [] ∨ sg = ['+'] ∨ sg = ['-'])
    (hds : ∀ c ∈ ds, c.isDigit = true)
    (hg : g.isDigit = false) :
    (∀ s, -(2 ^ 63) ≤ toInt64 s ∧ toInt64 s < 2 ^ 63 ∧ toInt s = toInt64 s) ∧
    (ds ≠ [] → sg ≠ ['-'] → (digitsVal ds : Int) < 2 ^ 63 →
      toInt64 (String.mk (sg ++ ds)) = digitsVal ds) ∧
    (ds ≠ [] → sg = ['-'] → (digitsVal ds : Int) ≤ 2 ^ 63 →
      toInt64 (String.mk (sg ++ ds)) = -(digitsVal ds : Int)) ∧
    (ds ≠ [] → sg ≠ ['-'] → 2 ^ 63 ≤ (digitsVal ds : Int) →
      toInt64 (String.mk (sg ++ ds)) = 2 ^ 63 - 1) ∧
    (ds ≠ [] → sg = ['-'] → 2 ^ 63 < (digitsVal ds : Int) →
      toInt64 (String.mk (sg ++ ds)) = -(2 ^ 63)) ∧
    toInt64 "" = 0 ∧ toInt64 "+" = 0 ∧ toInt64 "-" = 0 ∧
    ((sg = [] → ds = [] → g ≠ '+' ∧ g ≠ '-') → digitsVal ds < 2 ^ 64 →
      toInt64 (String.mk (sg ++ ds ++ g :: rest)) = 0) := by
  refine ⟨fun s => ⟨(toInt64_range s).1, (toInt64_range s).2, rfl⟩, ?_, ?_, ?_, ?_,
    by decide, by decide, by decide, ?_⟩
  · intro hne hs hv
    rw [toInt64_numeral sg ds hsg hds hne, if_neg hs]
    exact min_eq_right (by omega)
  · intro hne hs hv
    rw [toInt64_numeral sg ds hsg hds hne, if_pos hs]
    exact max_eq_right (by omega)
  · intro hne hs hv
    rw [toInt64_numeral sg ds hsg hds hne, if_neg hs]
    exact min_eq_left (by omega)
  · intro hne hs hv
    rw [toInt64_numeral sg ds hsg hds hne, if_pos hs]
    exact max_eq_left (by omega)
  · intro hfirst hv
    have hloop := parseUintLoop_garbage ds hds g hg rest 0 (by norm_num)
    have hval : List.foldl (fun n c => 10 * n + (c.toNat - 48)) 0 ds = digitsVal ds := rfl
    rw [hval, if_pos hv] at hloop
    have hbody : ∃ b bs, ds ++ g :: rest = b :: bs := by
      cases ds with
      | nil => exact ⟨g, rest, rfl⟩
      | cons d ds1 => exact ⟨d, ds1 ++ g :: rest, rfl⟩
    obtain ⟨b, bs, hb⟩ := hbody
    rcases hsg with rfl | rfl | rfl
    · have hbs : b ≠ '+' ∧ b ≠ '-' := by
        cases ds with
        | nil =>
          simp only [List.nil_append, List.cons.injEq] at hb
          rw [← hb.1]
          exact hfirst rfl rfl
        | cons d ds1 =>
          simp only [List.cons_append, List.cons.injEq] at hb
          rw [← hb.1]
          have hd := hds d (List.mem_cons_self d ds1)
          constructor
          · rintro rfl
            revert hd
            decide
          · rintro rfl
            revert hd
            decide
      rw [List.nil_append, hb, toInt64_unsigned b bs hbs.1 hbs.2, ← hb, hloop]
      rfl
    · rw [List.append_assoc, List.singleton_append, hb, toInt64_plus, ← hb, hloop]
      rfl
    · rw [List.append_assoc, List.singleton_append, hb, toInt64_minus, ← hb, hloop]
      rfl

/-- The numeral `-12` and the string `-12x`. -/
theorem toInt64_decodes_witness :
    ((['-'] : List Char) = [] ∨ (['-'] : List Char) = ['+'] ∨ (['-'] : List Char) = ['-']) ∧
    (∀ c ∈ ['1', '2'], c.isDigit = true) ∧ ('x').isDigit = false ∧
    toInt64 "-12" = -12 ∧ toInt64 "-12x" = 0 := by
  have h := toInt64_decodes ['-'] ['1', '2'] 'x' [] (by decide) (by decide) (by decide)
  exact ⟨by decide, by decide, by decide,
    h.2.2.1 (by decide) rfl (by decide),
    h.2.2.2.2.2.2.2.2 (by decide) (by decide)⟩

/-! ## The table as a whole -/

/-- C14: feed any sequence of lines to `ParseLine`, starting from an empty table, such
that every enter record has at least 10 fields and a non-empty name `field[5]`, and every
exit or return record, at position `j`, has an enter record of the same id at a position
`i < j`.  Then every entry of the resulting table has a non-empty name.  There is a
resulting table whenever the return records have at least 6 fields. -/
theorem table_names_nonempty (lib : GoLib F T) (lines : List String)
    (hEnter : ∀ l ∈ lines, recordKind l = some "0" →
      10 ≤ (Split l '\t').length ∧ (Split l '\t').getD 5 "" ≠ "")
    (hPrec : ∀ j, j < lines.length →
      recordKind (lines.getD j "") = some "1" ∨ recordKind (lines.getD j "") = some "R" →
      ∃ i, i < j ∧ recordKind (lines.getD i "") = some "0" ∧
        recordId (lines.getD i "") = recordId (lines.getD j "")) :
    (∀ x, parseLines lib (newTrace lib) lines = .ok x → ∀ e ∈ x.functions, e.2.name ≠ "") ∧
    ((∀ l ∈ lines, recordKind l = some "R" → 6 ≤ (Split l '\t').length) →
      ∃ x, parseLines lib (newTrace lib) lines = .ok x) := by
  constructor
  · refine parseLines_names lib lines [] (newTrace lib) (by simp [newTrace]) (by simp)
      (fun l hl h0 => (hEnter l hl h0).2) ?_
    intro pre l suf hsplit hk
    right
    have hj : (lines.getD pre.length "") = l := by
      rw [hsplit]
      simp only [List.getD_eq_getElem?_getD, List.getElem?_append_right (le_refl _),
        Nat.sub_self, List.getElem?_cons_zero, Option.getD_some]
    have hlt : pre.length < lines.length := by
      rw [hsplit]
      simp
    obtain ⟨i, hi, hki, hid⟩ := hPrec pre.length hlt (by rw [hj]; exact hk)
    have hget : lines.getD i "" = pre[i] := by
      rw [hsplit]
      simp [List.getD_eq_getElem?_getD, List.getElem?_append_left hi, hi]
    rw [hget] at hki hid
    rw [hj] at hid
    exact ⟨pre[i], List.getElem_mem _, hki, hid⟩
  · intro hRet
    exact parseLines_total lib lines (fun l hl h0 => (hEnter l hl h0).1) hRet (newTrace lib)

/-- The three lines of `Test_ParseFunctionPair`: the exit and the return record follow the
enter record of id 1, whose name is `define`. -/
theorem table_names_nonempty_witness :
    ∃ x, parseLines demoLib (newTrace demoLib)
        ["2\t1\t0\t0.000318\t369752\tdefine\t0\t\t./index.php\t20\t2\tENVIRONMENT\tproduction",
          "2\t1\t1\t0.000327\t369784", "2\t1\tR\t\t\tTRUE"] = .ok x ∧
      ∀ e ∈ x.functions, e.2.name ≠ "" :=
  ⟨_, rfl,
    (table_names_nonempty demoLib
      ["2\t1\t0\t0.000318\t369752\tdefine\t0\t\t./index.php\t20\t2\tENVIRONMENT\tproduction",
        "2\t1\t1\t0.000327\t369784", "2\t1\tR\t\t\tTRUE"] (by decide) (by decide)).1 _ rfl⟩

/-- C15: feed any sequence of lines to `ParseLine`, starting from an empty table, each
enter record having at least 10 fields and each return record at least 6.  The parse
does not panic, the ids present in the resulting table are exactly the ids
`toInt(field[1])` of the lines that have at least 5 fields and kind "0", "1" or "R", and
the number of entries is the number of distinct such ids, however many records share an
id. -/
theorem table_ids_are_record_ids (lib : GoLib F T) (lines : List String)
    (hEnter : ∀ l ∈ lines, recordKind l = some "0" → 10 ≤ (Split l '\t').length)
    (hRet : ∀ l ∈ lines, recordKind l = some "R" → 6 ≤ (Split l '\t').length) :
    ∃ x, parseLines lib (newTrace lib) lines = .ok x ∧
      (∀ k, (mapLookup x.functions k).isSome = true ↔
        k ∈ (lines.filter (fun l => isRecord l)).map recordId) ∧
      x.functions.length = ((lines.filter (fun l => isRecord l)).map recordId).dedup.length := by
  obtain ⟨x, hx, hnd, hmem⟩ :=
    parseLines_keys lib lines hEnter hRet (newTrace lib) (by simp [newTrace])
  have hmem1 : ∀ k, k ∈ x.functions.map Prod.fst ↔
      k ∈ (lines.filter (fun l => isRecord l)).map recordId := by
    intro k
    rw [hmem k]
    simp [newTrace]
  refine ⟨x, hx, fun k => ?_, ?_⟩
  · rw [mapLookup_isSome_iff]
    exact hmem1 k
  · have h1 : (x.functions.map Prod.fst).toFinset =
        ((lines.filter (fun l => isRecord l)).map recordId).toFinset := by
      ext k
      simp only [List.mem_toFinset]
      exact hmem1 k
    have h2 := List.toFinset_card_of_nodup hnd
    rw [h1, List.card_toFinset, List.length_map] at h2
    exact h2.symm

/-- The three lines of `Test_ParseFunctionPair` and the two lines of `Test_invalidLine`:
three records share the id 1, and the table has one entry. -/
theorem table_ids_are_record_ids_witness :
    ∃ x, parseLines demoLib (newTrace demoLib)
        ["2\t1\t0\t0.000318\t369752\tdefine\t0\t\t./index.php\t20\t2\tENVIRONMENT\tproduction",
          "2\t1\t1\t0.000327\t369784", "2\t1\tR\t\t\tTRUE",
          "TRACE END   [2017-03-14 14:34:51]", "0.162800\t552"] = .ok x ∧
      x.functions.length = 1 := by
  obtain ⟨x, hx, _, hlen⟩ := table_ids_are_record_ids demoLib
    ["2\t1\t0\t0.000318\t369752\tdefine\t0\t\t./index.php\t20\t2\tENVIRONMENT\tproduction",
      "2\t1\t1\t0.000327\t369784", "2\t1\tR\t\t\tTRUE",
      "TRACE END   [2017-03-14 14:34:51]", "0.162800\t552"] (by decide) (by decide)
  exact ⟨x, hx, hlen.trans (by decide)⟩

/-- C17: parsing is a function of the input lines.  Two runs of `ParseContent` on the same
list of lines have the same outcome: the same trace (identical version, format, start
timestamp and functions table), or the same panic.  The outcome does not depend on how
the table is laid out either: feeding the same lines to two traces with identical
content, whatever the order of their entries, gives traces with identical content. -/
theorem ParseContent_pure (lib : GoLib F T) (lines : List String)
    (r1 r2 : Except GoPanic (XDebugTrace F T))
    (h1 : ParseContent lib lines = r1) (h2 : ParseContent lib lines = r2) :
    r1 = r2 ∧ sameRun r1 r2 ∧
    ∀ x y : XDebugTrace F T, sameTrace x y →
      sameRun (parseLines lib x lines) (parseLines lib y lines) := by
  subst h1 h2
  exact ⟨rfl, sameRun_refl _, fun x y h => parseLines_sameTrace lib lines x y h⟩

/-- Two runs on the three lines of `Test_ParseFunctionPair` behind a header. -/
theorem ParseContent_pure_witness :
    sameRun
      (ParseContent demoLib
        ["Version: 2.4.0", "File format: 4", "", "TRACE START [2017-03-14 14:34:51]",
          "2\t1\t0\t0.000318\t369752\tdefine\t0\t\t./index.php\t20\t2\tENVIRONMENT\tproduction",
          "2\t1\t1\t0.000327\t369784", "2\t1\tR\t\t\tTRUE"])
      (ParseContent demoLib
        ["Version: 2.4.0", "File format: 4", "", "TRACE START [2017-03-14 14:34:51]",
          "2\t1\t0\t0.000318\t369752\tdefine\t0\t\t./index.php\t20\t2\tENVIRONMENT\tproduction",
          "2\t1\t1\t0.000327\t369784", "2\t1\tR\t\t\tTRUE"]) ∧
    ∃ x : XDebugTrace Int (List Nat),
      ParseContent demoLib
        ["Version: 2.4.0", "File format: 4", "", "TRACE START [2017-03-14 14:34:51]",
          "2\t1\t0\t0.000318\t369752\tdefine\t0\t\t./index.php\t20\t2\tENVIRONMENT\tproduction",
          "2\t1\t1\t0.000327\t369784", "2\t1\tR\t\t\tTRUE"] = .ok x ∧
      x.version = "2.4.0" ∧ x.functions.length = 1 :=
  ⟨(ParseContent_pure demoLib
      ["Version: 2.4.0", "File format: 4", "", "TRACE START [2017-03-14 14:34:51]",
          "2\t1\t0\t0.000318\t369752\tdefine\t0\t\t./index.php\t20\t2\tENVIRONMENT\tproduction",
          "2\t1\t1\t0.000327\t369784", "2\t1\tR\t\t\tTRUE"] _ _ rfl rfl).2.1,
    _, rfl, rfl, rfl⟩

/-- C19: a record touches only its own id.  After `ParseLine` on a line, in any trace
state, every id other than `toInt(field[1])` of the line is mapped to what it was mapped
to before (present exactly when it was, with an equal record); no id is lost, and the
table has the entries it had or one more.  The header fields are left alone. -/
theorem ParseLine_touches_own_id (lib : GoLib F T) (x x1 : XDebugTrace F T)
    (f : XDebugFunction F) (line : String) (h : ParseLine lib x line = .ok (f, x1)) :
    (∀ k, k ≠ recordId line → mapLookup x1.functions k = mapLookup x.functions k) ∧
    (∀ k, (mapLookup x.functions k).isSome = true → (mapLookup x1.functions k).isSome = true) ∧
    x.functions.length ≤ x1.functions.length ∧
    x1.functions.length ≤ x.functions.length + 1 ∧
    x1.version = x.version ∧ x1.format = x.format ∧ x1.start_ts = x.start_ts := by
  rcases ParseLine_outcome lib line with ⟨_, p, hp⟩ | ⟨_, hp⟩ | ⟨_, g, _, hp⟩
  · rw [hp x] at h
    cases h
  · rw [hp x] at h
    cases h
    exact ⟨fun _ _ => rfl, fun _ hk => hk, le_refl _, Nat.le_succ _, rfl, rfl, rfl⟩
  · rw [hp x] at h
    cases h
    refine ⟨fun k hk => mapLookup_mapAssign_ne _ _ _ _ hk, fun k hk => ?_,
      (length_mapAssign _ _ _).1, (length_mapAssign _ _ _).2, rfl, rfl, rfl⟩
    simp only [mapLookup_mapAssign]
    split
    · rfl
    · exact hk

/-- An exit record for id 1 fed to a trace that holds a record at id 5. -/
theorem ParseLine_touches_own_id_witness :
    ∃ f x1,
      ParseLine demoLib
        { newTrace demoLib with
          functions := [(5, { XDebugFunction.zero demoLib with name := "main" })] }
        "2\t1\t1\t0.000327\t369784" = .ok (f, x1) ∧
      mapLookup x1.functions 5 = some { XDebugFunction.zero demoLib with name := "main" } ∧
      x1.functions.length ≤ 2 :=
  ⟨_, _, rfl,
    (ParseLine_touches_own_id demoLib _ _ _ "2\t1\t1\t0.000327\t369784" rfl).1 5 (by decide),
    (ParseLine_touches_own_id demoLib _ _ _ "2\t1\t1\t0.000327\t369784" rfl).2.2.2.1⟩

/-! ## The renderer -/

/-- C16: `ToHtml` does not emit the records in ascending order of their id: it emits them
in the order in which `range x.functions` visits the map, and nothing sorts them.  For
the table with the records `a` at id 1 and `b` at id 2, the visit `b`, `a` is a
permutation of the table; the output of that run has the block of `b` (id 2) before the
block of `a` (id 1) and differs from the output in ascending order of id. -/
theorem ToHtml_follows_map_order :
    mapAssign (mapAssign [] 1 { XDebugFunction.zero demoLib with name := "a" }) 2
        { XDebugFunction.zero demoLib with name := "b" } =
      [(1, { XDebugFunction.zero demoLib with name := "a" }),
        (2, { XDebugFunction.zero demoLib with name := "b" })] ∧
    List.Perm
      [(2, { XDebugFunction.zero demoLib with name := "b" }),
        (1, { XDebugFunction.zero demoLib with name := "a" })]
      [(1, { XDebugFunction.zero demoLib with name := "a" }),
        (2, { XDebugFunction.zero demoLib with name := "b" })] ∧
    (ToHtml demoLib
      [(2, { XDebugFunction.zero demoLib with name := "b" }),
        (1, { XDebugFunction.zero demoLib with name := "a" })]).indexOf
        "<span class=\"name\">b</span>" = 15 ∧
    (ToHtml demoLib
      [(2, { XDebugFunction.zero demoLib with name := "b" }),
        (1, { XDebugFunction.zero demoLib with name := "a" })]).indexOf
        "<span class=\"name\">a</span>" = 27 ∧
    ToHtml demoLib
      [(2, { XDebugFunction.zero demoLib with name := "b" }),
        (1, { XDebugFunction.zero demoLib with name := "a" })] ≠
    ToHtml demoLib
      [(1, { XDebugFunction.zero demoLib with name := "a" }),
        (2, { XDebugFunction.zero demoLib with name := "b" })] :=
  ⟨by decide, List.Perm.swap _ _ _, by decide, by decide, by decide⟩

/-- C18: the container markers of `ToHtml` are balanced.  For records of non-negative
depth, visited in any order, the number of output lines that open a `div` without closing
it on the same line equals the number of output lines equal to `</div>`, and in every
prefix of the output the closing lines are at most as many as the opening lines. -/
theorem ToHtml_balanced (lib : GoLib F T) (visit : List (Int × XDebugFunction F))
    (hd : ∀ e ∈ visit, 0 ≤ e.2.depth) :
    countOpens (ToHtml lib visit) = countCloses (ToHtml lib visit) ∧
    ∀ n, countCloses ((ToHtml lib visit).take n) ≤ countOpens ((ToHtml lib visit).take n) := by
  obtain ⟨h1, h2, h3⟩ := htmlLoop_balance lib visit hd 0 (le_refl 0)
  have hout : ToHtml lib visit =
      htmlHeader ++ (htmlLoop lib 0 visit).1 ++
        (if (htmlLoop lib 0 visit).2 > 0 then
          List.replicate (htmlLoop lib 0 visit).2.toNat "</div>" else []) := by
    simp only [ToHtml]
  have h3c : divDelta "</div>" = -1 := by decide
  have hclose : (if (htmlLoop lib 0 visit).2 > 0 then
      List.replicate (htmlLoop lib 0 visit).2.toNat "</div>" else []).map divDelta =
      List.replicate (htmlLoop lib 0 visit).2.toNat (-1) := by
    split
    · simp [List.map_replicate, h3c]
    · rename_i hle
      have : (htmlLoop lib 0 visit).2.toNat = 0 := by omega
      simp [this]
  have hdelta : (ToHtml lib visit).map divDelta =
      [0, 0, 0, 0, 1, 0, 1, 0, 0, 0, 0, -1, -1] ++ (htmlLoop lib 0 visit).1.map divDelta ++
        List.replicate (htmlLoop lib 0 visit).2.toNat (-1) := by
    rw [hout, List.map_append, List.map_append, divDelta_htmlHeader, hclose]
  have hsum : ((ToHtml lib visit).map divDelta).sum = 0 := by
    rw [hdelta, List.sum_append, List.sum_append, h2, sum_replicate_int]
    have : ([0, 0, 0, 0, 1, 0, 1, 0, 0, 0, 0, -1, -1] : List Int).sum = 0 := by decide
    rw [this]
    omega
  have hpre : prefixesNonneg 0 ((ToHtml lib visit).map divDelta) := by
    rw [hdelta]
    refine prefixesNonneg_append _ _ _ (prefixesNonneg_append _ _ _ ?_ ?_) ?_
    · repeat (first
        | exact prefixesNonneg_nil _ (by omega)
        | refine prefixesNonneg_cons _ _ _ (by omega) ?_)
    · have : (0 : Int) + ([0, 0, 0, 0, 1, 0, 1, 0, 0, 0, 0, -1, -1] : List Int).sum = 0 := by
        decide
      rw [this]
      exact h3
    · refine prefixesNonneg_closes _ _ ?_
      rw [List.sum_append, h2]
      have : ([0, 0, 0, 0, 1, 0, 1, 0, 0, 0, 0, -1, -1] : List Int).sum = 0 := by decide
      rw [this]
      omega
  constructor
  · have h := count_eq_sum_divDelta (ToHtml lib visit)
    rw [hsum] at h
    omega
  · intro n
    have h := count_eq_sum_divDelta ((ToHtml lib visit).take n)
    have hn := hpre n
    rw [List.map_take] at h
    omega

/-- Two records of depth 2 and 1, visited in this order. -/
theorem ToHtml_balanced_witness :
    (∀ e ∈ ([(2, { XDebugFunction.zero demoLib with name := "b", depth := 2 }),
        (1, { XDebugFunction.zero demoLib with name := "a", depth := 1 })] :
        List (Int × XDebugFunction Int)), 0 ≤ e.2.depth) ∧
    countOpens (ToHtml demoLib
      [(2, { XDebugFunction.zero demoLib with name := "b", depth := 2 }),
        (1, { XDebugFunction.zero demoLib with name := "a", depth := 1 })]) = 10 ∧
    countOpens (ToHtml demoLib
      [(2, { XDebugFunction.zero demoLib with name := "b", depth := 2 }),
        (1, { XDebugFunction.zero demoLib with name := "a", depth := 1 })]) =
    countCloses (ToHtml demoLib
      [(2, { XDebugFunction.zero demoLib with name := "b", depth := 2 }),
        (1, { XDebugFunction.zero demoLib with name := "a", depth := 1 })]) :=
  ⟨by decide, by decide,
    (ToHtml_balanced demoLib
      [(2, { XDebugFunction.zero demoLib with name := "b", depth := 2 }),
        (1, { XDebugFunction.zero demoLib with name := "a", depth := 1 })] (by decide)).1⟩

/-- The source `join` is the concatenation of the elements, for every separator. -/
theorem join_eq_concat (sep : String) (ss : List String) :
    join sep ss = ss.foldl (fun s e => s ++ e) "" := by
  cases ss with
  | nil => rfl
  | cons s0 rest =>
    have h : ("" : String) ++ s0 = s0 := by
      apply String.ext
      simp
    simp [join, h]

/-- C20: `join(sep, ss)` does not insert the separator: it never uses `sep` and returns the
plain concatenation of the elements.  `join(",", ["a", "b"])` is `"ab"`, not `"a,b"`, and
the params line of `ToHtml` for the params `'ENVIRONMENT'`, `'production'` shows them
run together. -/
theorem join_drops_separator :
    join "," ["a", "b"] = "ab" ∧
    join "," ["a", "b"] ≠ "a,b" ∧
    join "," ["\x27ENVIRONMENT\x27", "\x27production\x27"] =
      "\x27ENVIRONMENT\x27\x27production\x27" ∧
    (htmlRecordLines demoLib
        { XDebugFunction.zero demoLib with
          params := ["\x27ENVIRONMENT\x27", "\x27production\x27"] })[3]? =
      some "<span class=\"params short\">\x27ENVIRONMENT\x27\x27production\x27</span>" ∧
    ∀ sep : String, join sep ["a", "b", "c"] = "abc" :=
  ⟨by decide, by decide, by decide, by decide, fun _ => rfl⟩

end Claims

end xdebugtrace
